import Mathlib

/-!
Verification of the store-writer / normalization engine (writeToStore.ts).

This file shallowly embeds the write path of the normalized cache:
the StoreWriter class with writeToStore, processSelectionSet and
processFieldValue, the warnAboutDataLoss guard, and the TTL eviction
scheduling block, together with the external collaborators they consume
(identity policies, the normalized store, the job queue).  JavaScript
values are modelled by the Value family below; the distinction between
an absent property (undefined) and an explicit null is modelled by
Option (a missing key in a Fields record) versus Value.null.  Object
identity of AST nodes (selection sets and selections), which the source
relies on for its duplicate-work guard and for work-set deduplication,
is modelled by Nat identity tags carried on every node.  The recursive
engine is written with an explicit fuel argument; fuel exhaustion is a
distinguished outcome and every theorem quantifies over fuel.
-/

/- Values stored in or arriving at the cache: JSON scalars, arrays,
objects, Reference handles, and the transient FieldValueToBeMerged
marker objects created for fields with a custom merge function. -/
mutual
inductive Value : Type where
  | null
  | str (s : String)
  | num (n : Int)
  | bool (b : Bool)
  | arr (items : VList)
  | obj (fields : Fields)
  | ref (id : String)
  | toMerge (sid : Nat) (typename : Option String) (value : Value)
inductive VList : Type where
  | nil
  | cons (head : Value) (tail : VList)
inductive Fields : Type where
  | nil
  | cons (key : String) (value : Value) (tail : Fields)
end

/-- Property read on a record: none models an undefined (absent) key. -/
def Fields.lookup : Fields → String → Option Value
  | .nil, _ => none
  | .cons k v rest, key => if k = key then some v else rest.lookup key

def Fields.append : Fields → Fields → Fields
  | .nil, g => g
  | .cons k v rest, g => .cons k v (rest.append g)

/-- Keys of a record, in order (Object.keys). -/
def Fields.keys : Fields → List String
  | .nil => []
  | .cons k _ rest => k :: rest.keys

/-- JavaScript property assignment: overwrite in place if the key exists,
otherwise append the new property at the end. -/
def Fields.set : Fields → String → Value → Fields
  | .nil, key, v => .cons key v .nil
  | .cons k w rest, key, v =>
    if k = key then .cons k v rest else .cons k w (rest.set key v)

/-- Entries of the first record whose key is absent from the second. -/
def Fields.filterNotIn : Fields → Fields → Fields
  | .nil, _ => .nil
  | .cons k v rest, e =>
    match e.lookup k with
    | some _ => rest.filterNotIn e
    | none => .cons k v (rest.filterNotIn e)

def VList.length : VList → Nat
  | .nil => 0
  | .cons _ rest => 1 + rest.length

def VList.get? : VList → Nat → Option Value
  | .nil, _ => none
  | .cons v _, 0 => some v
  | .cons _ rest, n+1 => rest.get? n

/- Modelled from the spec: the general-purpose deep-merge used during
writes (makeProcessedFieldsMerger lives outside this repository's
sources).  Two mapping-like values merge key by key, recursing on shared
keys; any other incoming value (scalar, sequence, Reference) replaces
the existing value wholesale. -/
mutual
def mergeValues : Value → Value → Value
  | .obj e, .obj i => .obj ((mergeOld e i).append (i.filterNotIn e))
  | _, i => i
def mergeOld : Fields → Fields → Fields
  | .nil, _ => .nil
  | .cons k v rest, i =>
    .cons k
      (match i.lookup k with
       | some w => mergeValues v w
       | none => v)
      (mergeOld rest i)
end

/-- Deep merge of two records: the result carries every key of the
existing record (recursively merged where the incoming record also has
the key) followed by the incoming record's new keys. -/
def mergeFields (e i : Fields) : Fields :=
  (mergeOld e i).append (i.filterNotIn e)

/- Modelled from the spec: structural equality of values (the equal
function of the wry equality package, external to this repository);
objects compare by key set and pointwise values, arrays pointwise. -/
mutual
def valueEqual : Value → Value → Bool
  | .null, .null => true
  | .str a, .str b => a == b
  | .num a, .num b => a == b
  | .bool a, .bool b => a == b
  | .ref a, .ref b => a == b
  | .arr a, .arr b => valueListEqual a b
  | .obj a, .obj b => a.keys.length == b.keys.length && valueFieldsSub a b
  | .toMerge sa ta va, .toMerge sb tb vb => sa == sb && ta == tb && valueEqual va vb
  | _, _ => false
def valueListEqual : VList → VList → Bool
  | .nil, .nil => true
  | .cons a as, .cons b bs => valueEqual a b && valueListEqual as bs
  | _, _ => false
def valueFieldsSub : Fields → Fields → Bool
  | .nil, _ => true
  | .cons k v rest, i =>
    (match i.lookup k with
     | some w => valueEqual v w
     | none => false) && valueFieldsSub rest i
end

/- Modelled from the spec: compact JSON rendering of a value, standing
in for the host JSON serializer used for the truncated result snapshot
in the missing-field error (string escaping and pretty indentation are
not modelled). -/
mutual
def stringifyValue : Value → String
  | .null => "null"
  | .str s => "\"" ++ s ++ "\""
  | .num n => toString n
  | .bool b => if b then "true" else "false"
  | .arr items => "[" ++ stringifyVList items ++ "]"
  | .obj fields => "\x7b" ++ stringifyFieldsBody fields ++ "\x7d"
  | .ref r => "\x7b\"__ref\":\"" ++ r ++ "\"\x7d"
  | .toMerge _ _ v => stringifyValue v
def stringifyVList : VList → String
  | .nil => ""
  | .cons v .nil => stringifyValue v
  | .cons v rest => stringifyValue v ++ "," ++ stringifyVList rest
def stringifyFieldsBody : Fields → String
  | .nil => ""
  | .cons k v .nil => "\"" ++ k ++ "\":" ++ stringifyValue v
  | .cons k v rest => "\"" ++ k ++ "\":" ++ stringifyValue v ++ "," ++ stringifyFieldsBody rest
end

def stringifyFields (f : Fields) : String :=
  "\x7b" ++ stringifyFieldsBody f ++ "\x7d"

/-- JavaScript truthiness of a possibly-absent value. -/
def jsTruthy : Option Value → Bool
  | none => false
  | some .null => false
  | some (.str s) => !(s == "")
  | some (.num n) => !(n == 0)
  | some (.bool b) => b
  | some (.arr _) => true
  | some (.obj _) => true
  | some (.ref _) => true
  | some (.toMerge ..) => true

/-- Modelled from the spec: numeric coercion applied to the TTL marker
(the source calls Number on the maxAge field); timestamps are modelled
as integers and non-numeric markers coerce to 0. -/
def jsToNumber : Value → Int
  | .num n => n
  | .bool true => 1
  | _ => 0

/-- JavaScript string-or: the left operand wins unless it is falsy (absent
or the empty string). -/
def jsOrStr (a b : Option String) : Option String :=
  match a with
  | some s => if s = "" then b else some s
  | none => b

/-- Guard corresponding to a JavaScript conjunction dataId && e: the
identifier is consulted only when truthy (present and nonempty). -/
def nonEmptyOpt : Option String → Option String
  | some s => if s = "" then none else some s
  | none => none

/-- JavaScript value-or on possibly-absent values, deciding by truthiness. -/
def jsOrV (a b : Option Value) : Option Value :=
  if jsTruthy a then a else b

/-- Modelled from the spec: fieldNameFromStoreName of the helpers module
(outside these sources) recovers the field name from a store field key by
taking the leading run of word characters (the storage key encodes field
arguments after that prefix). -/
def fieldNameFromStoreName (storeFieldName : String) : String :=
  let w : String := ⟨storeFieldName.data.takeWhile (fun c => c.isAlphanum || c = '_')⟩
  if w = "" then storeFieldName else w

/-- Selections of a selection set.  The sid tag models the JavaScript
object identity of the selection node; incl models the result of the
directive-based inclusion predicate (shouldInclude) for this selection
under the write's variables; deferOrClient models hasDirectives for the
defer and client directives.  Named-fragment spreads are pre-resolved
against the fragment table: frag carries the resolved fragment's type
condition and selection set, and missingFrag stands for a spread whose
fragment is absent from the table. -/
inductive Selection : Type where
  | field (sid : Nat) (name : String) (aliasName : Option String)
      (incl : Bool) (deferOrClient : Bool) (sub : Option (Nat × List Selection))
  | frag (sid : Nat) (incl : Bool) (typeCond : Option String) (fragSS : Nat × List Selection)
  | missingFrag (sid : Nat) (incl : Bool)

/-- Selection-set node: its identity tag (JavaScript object identity of
the SelectionSetNode) paired with its selections. -/
abbrev SelSet := Nat × List Selection

def Selection.sid : Selection → Nat
  | .field s .. => s
  | .frag s .. => s
  | .missingFrag s .. => s

def Selection.incl : Selection → Bool
  | .field _ _ _ i .. => i
  | .frag _ i .. => i
  | .missingFrag _ i => i

/-- External identity, field-policy and type-matching capabilities
consumed by the writer (the Policies object, outside these sources).
getStoreFieldName receives the typename, the field name and the field
node's identity tag (standing for the field node and the variables that
determine the argument part of the storage key). -/
structure Policies : Type where
  identify : Fields → SelSet → Option String × Option Fields
  rootTypenamesById : String → Option String
  getStoreFieldName : Option String → String → Nat → String
  hasMergeFunction : Option String → String → Bool
  usingPossibleTypes : Bool
  fragmentMatches : Option String → Option String → Bool
  applyMerges : String → Fields → Fields

/-- The normalized store consumed by the writer: entity records keyed by
identifier, plus the set of retained (GC-root) identifiers. -/
structure Store : Type where
  records : List (String × Fields)
  retained : List String

def lookupRecord : List (String × Fields) → String → Option Fields
  | [], _ => none
  | (k, r) :: rest, key => if k = key then some r else lookupRecord rest key

def setRecord : List (String × Fields) → String → Fields → List (String × Fields)
  | [], key, r => [(key, r)]
  | (k, q) :: rest, key, r =>
    if k = key then (key, r) :: rest else (k, q) :: setRecord rest key r

def Store.getFieldOf (st : Store) (dataId key : String) : Option Value :=
  match lookupRecord st.records dataId with
  | some r => r.lookup key
  | none => none

def storeGetString (st : Store) (dataId key : String) : Option String :=
  match st.getFieldOf dataId key with
  | some (.str t) => some t
  | _ => none

/-- Store merge: deep-merges the incoming record into the existing one
(spec section 6: merge with the deep-merge semantics of section 4.3). -/
def Store.mergeRecord (st : Store) (dataId : String) (incoming : Fields) : Store :=
  let existing := (lookupRecord st.records dataId).getD Fields.nil
  { st with records := setRecord st.records dataId (mergeFields existing incoming) }

/-- Store retain: marks an identifier as a reachable GC root. -/
def Store.retain (st : Store) (dataId : String) : Store :=
  if dataId ∈ st.retained then st else { st with retained := st.retained ++ [dataId] }

/-- Modelled from the spec: the store's field accessor (getFieldValue of
the NormalizedCache interface, outside these sources); a Reference is
dereferenced through the store, a plain object is read directly, and an
array answers canonical numeric keys. -/
def getFieldValueS (st : Store) (objOrRef : Value) (key : String) : Option Value :=
  match objOrRef with
  | .ref r =>
    (match lookupRecord st.records r with
     | some rec => rec.lookup key
     | none => none)
  | .obj fields => fields.lookup key
  | .arr items =>
    (match key.toNat? with
     | some n => items.get? n
     | none => none)
  | _ => none

/-- Object-shaped in the JavaScript sense used by the data-loss guard:
typeof yields object and the value is truthy (arrays, plain objects,
References and marker objects qualify; null does not). -/
def isObjectShaped : Value → Bool
  | .obj _ => true
  | .arr _ => true
  | .ref _ => true
  | .toMerge .. => true
  | _ => false

/-- Enumerable own keys of a value (Object.keys): a record's keys, an
array's index strings, nothing otherwise.  Marker objects expose their
three wrapper keys. -/
def objKeys : Value → List String
  | .obj fields => fields.keys
  | .arr items => (List.range items.length).map (fun n => toString n)
  | .toMerge .. => ["__field", "__typename", "__value"]
  | _ => []

/-- Reference test (isReference): a value is a Reference handle. -/
def Value.isRefB : Value → Bool
  | .ref _ => true
  | _ => false

/-- The getChild accessor of warnAboutDataLoss: the sub-value at the
store field key, kept only when it is a truthy object. -/
def childAt (st : Store) (objOrRef : Value) (storeFieldName : String) : Option Value :=
  match getFieldValueS st objOrRef storeFieldName with
  | some v => if isObjectShaped v then some v else none
  | none => none

/-- Check of warnAboutDataLoss deciding that the incoming sub-value keeps
every key of the existing sub-value (reading incoming keys through the
store's field accessor, which dereferences References). -/
def allKeysPresent (st : Store) (existing incoming : Value) : Bool :=
  (objKeys existing).all (fun k => (getFieldValueS st incoming k).isSome)

/-- Display of a possibly-absent value inside a template string (String
coercion; non-scalar values are simplified to the object placeholder). -/
def jsDisplay : Option Value → String
  | none => "undefined"
  | some .null => "null"
  | some (.str t) => t
  | some (.num n) => toString n
  | some (.bool b) => if b then "true" else "false"
  | some _ => "[object Object]"

/-- The parent-type-dot-field-name key under which data-loss warnings are
deduplicated for the lifetime of the process. -/
def typeDot (st : Store) (dataId : String) (incomingObj : Fields) (storeFieldName : String) : String :=
  let parentType :=
    jsOrV (getFieldValueS st (.ref dataId) "__typename")
      (getFieldValueS st (.obj incomingObj) "__typename")
  jsDisplay parentType ++ "." ++ fieldNameFromStoreName storeFieldName

/-- Scheduled eviction job: the entity identifier carried in the payload
and the job's execution time (an absolute timestamp). -/
structure Job : Type where
  id : String
  executionTime : Int
  deriving Repr, DecidableEq

/-- Observable events of a write, used to express that field processing
or warning emission did or did not happen: fieldWalk records one
invocation of the field value processor for the selection node with the
given identity tag, and warned records one emitted data-loss warning. -/
inductive Event : Type where
  | fieldWalk (sid : Nat)
  | warned (typeDotName : String)
  deriving Repr, DecidableEq

/-- The error thrown on a missing field: the InvariantError carrying the
response key of the missing field and the truncated JSON snapshot of the
result object. -/
inductive Err : Type where
  | missingField (resultKey : String) (snapshot : String)
  deriving Repr, DecidableEq

/-- Mutable state threaded through a write: the target store, the
per-write record of already-applied selection sets (pairs of entity
identifier and selection-set identity), the shared shouldApplyMerges
flag of the out parameter, the scheduler's job list, the process-wide
set of already-emitted warning keys, and the event log. -/
structure WState : Type where
  store : Store
  written : List (String × Nat)
  shouldApplyMerges : Bool
  jobs : List Job
  warnings : List String
  log : List Event

/-- Result of a fallible, fuel-limited computation: success and thrown
errors both carry the state reached so far (side effects performed
before a throw persist); fuelOut reports fuel exhaustion of the model. -/
inductive Res (α : Type) : Type where
  | ok (a : α) (s : WState)
  | err (e : Err) (s : WState)
  | fuelOut

/-- External collaborators and mode flags of one writer instance: the
policies object, the production-mode flag, the optional read-side
freshness check, the current clock reading used for the fallback
eviction job, and whether the scheduler's update-in-place succeeds. -/
structure Env : Type where
  policies : Policies
  prod : Bool
  hasReader : Bool
  isFresh : Fields → String → Nat → Bool
  now : Int
  updateJobSucceeds : Bool

/-- Modelled from the spec: getTypenameFromResult (a graphql utility
outside these sources) reads the typename recorded on the result
object. -/
def getTypenameFromResult (result : Fields) : Option String :=
  match result.lookup "__typename" with
  | some (.str t) => some t
  | _ => none

/-- Typename resolution of processSelectionSet: the root-typename table
entry for the identifier, else the result object's typename, else the
typename already stored under the identifier. -/
def psTypename (env : Env) (dataId : Option String) (result : Fields) (st : Store) : Option String :=
  jsOrStr ((nonEmptyOpt dataId).bind env.policies.rootTypenamesById)
    (jsOrStr (getTypenameFromResult result)
      ((nonEmptyOpt dataId).bind (fun d => storeGetString st d "__typename")))

/-- Initial field accumulator of processSelectionSet: an empty record
merged with the keyObject produced by identification, then carrying the
resolved typename under the typename key. -/
def initAcc (keyObject : Option Fields) (tn : Option String) : Fields :=
  let acc0 := match keyObject with
    | some ko => mergeFields Fields.nil ko
    | none => Fields.nil
  match tn with
  | some t => acc0.set "__typename" (Value.str t)
  | none => acc0

/-- Construction of the work set from the selection list (new Set):
deduplicates by node identity keeping first occurrences. -/
def dedupBySid : List Selection → List Nat → List Selection
  | [], _ => []
  | sel :: rest, seen =>
    if sel.sid ∈ seen then dedupBySid rest seen
    else sel :: dedupBySid rest (sel.sid :: seen)

def initQueue (ss : SelSet) : List Selection := dedupBySid ss.2 []

def initSeen (ss : SelSet) : List Nat := (initQueue ss).map Selection.sid

/-- Splicing a matched fragment's selections into the work set: each
selection not already a member (by node identity) is appended at the end
of the pending queue and recorded as a member. -/
def addSels : List Selection → List Selection → List Nat → List Selection × List Nat
  | [], queue, seen => (queue, seen)
  | sel :: rest, queue, seen =>
    if sel.sid ∈ seen then addSels rest queue seen
    else addSels rest (queue ++ [sel]) (seen ++ [sel.sid])

/-- Update of the pending eviction job found for an identifier: its
execution time is replaced in place. -/
def updateFirstJob : List Job → String → Int → List Job
  | [], _, _ => []
  | j :: rest, dataId, t =>
    if j.id = dataId then { j with executionTime := t } :: rest
    else j :: updateFirstJob rest dataId t

/-- Job-list reconciliation of the eviction scheduling block (source
lines 312 to 333): if no pending job carries this identifier a new job
with the marker's execution time is added; otherwise the existing job's
execution time is updated in place, and if that update fails a single
fallback job thirty seconds in the future is added. -/
def scheduleJobs (env : Env) (dataId : String) (t : Int) (jobs : List Job) : List Job :=
  match jobs.find? (fun j => j.id == dataId) with
  | none => jobs ++ [⟨dataId, t⟩]
  | some _ =>
    if env.updateJobSucceeds then updateFirstJob jobs dataId t
    else jobs ++ [⟨dataId, env.now + 30000⟩]

def scheduleEviction (env : Env) (dataId : String) (t : Int) (s : WState) : WState :=
  { s with jobs := scheduleJobs env dataId t s.jobs }

/-- The data-loss guard (warnAboutDataLoss, source lines 373 to 449):
compares the existing stored sub-value with the incoming one at a store
field key and emits at most one warning per parent-type and field-name
pair, deduplicated through the process-wide warnings set; it reads the
store but never changes it. -/
def warnAboutDataLoss (dataId : String) (incomingObj : Fields) (storeFieldName : String) (s : WState) : WState :=
  match childAt s.store (.ref dataId) storeFieldName with
  | none => s
  | some existing =>
    match childAt s.store (.obj incomingObj) storeFieldName with
    | none => s
    | some incoming =>
      if existing.isRefB then s
      else if valueEqual existing incoming then s
      else if allKeysPresent s.store existing incoming then s
      else if typeDot s.store dataId incomingObj storeFieldName ∈ s.warnings then s
      else
        { s with
          warnings := s.warnings ++ [typeDot s.store dataId incomingObj storeFieldName],
          log := s.log ++ [Event.warned (typeDot s.store dataId incomingObj storeFieldName)] }

/-- The development-mode walk over the committed record's keys invoking
the data-loss guard for every field without a custom merge function. -/
def warnLoop (env : Env) (tn : Option String) (dataId : String) (mf : Fields) : List String → WState → WState
  | [], s => s
  | k :: rest, s =>
    warnLoop env tn dataId mf rest
      (if env.policies.hasMergeFunction tn (fieldNameFromStoreName k) then s
       else warnAboutDataLoss dataId mf k s)

/-- Development-mode stage of the commit: the data-loss guard runs over
the record's keys for every field without a custom merge function; the
stage is skipped entirely in production mode. -/
def commitWarn (env : Env) (tn : Option String) (dataId : String) (mf : Fields) (s : WState) : WState :=
  if env.prod then s else warnLoop env tn dataId mf mf.keys s

/-- Eviction-scheduling stage of the commit: reconcile a deferred
eviction job when the committed record is non-root and carries a truthy
maxAge marker. -/
def commitSchedule (env : Env) (dataId : String) (mf : Fields) (s : WState) : WState :=
  if dataId ≠ "ROOT_QUERY" ∧ jsTruthy (mf.lookup "maxAge") then
    scheduleEviction env dataId (jsToNumber ((mf.lookup "maxAge").getD Value.null)) s
  else s

/-- Store stage of the commit: deep-merge the record into the store. -/
def commitStore (dataId : String) (mf : Fields) (s : WState) : WState :=
  { s with store := s.store.mergeRecord dataId mf }

/-- Commit tail of processSelectionSet for an identified entity (source
lines 289 to 341): run the custom-merge pass when the shared flag was
set, run the data-loss guard over the record's keys outside production
mode, reconcile the eviction job when the record is non-root and carries
a truthy maxAge marker, and deep-merge the record into the store. -/
def commitEntity (env : Env) (dataId : String) (tn : Option String) (mf0 : Fields) (s : WState) : WState :=
  let mf := if s.shouldApplyMerges then env.policies.applyMerges dataId mf0 else mf0
  commitStore dataId mf (commitSchedule env dataId mf (commitWarn env tn dataId mf s))

/- The recursive write engine (StoreWriter.processSelectionSet, its work
set walk over the selections, and StoreWriter.processFieldValue), with an
explicit fuel argument making the mutual recursion structural.

processSelectionSet (source lines 153 to 341): identify the result even
when an explicit identifier was given, let the explicit identifier take
precedence, guard against re-applying the same selection-set node to the
same identifier within one write, optionally short-circuit through the
reader's freshness check, accumulate fields through the work-set walk,
and either commit an entity record and return a Reference or return the
accumulator inline.

runWorkLoop (source lines 223 to 287): the iteration of the work set
seeded with the selection set's selections; fields read the result at
the response key, process the value and deep-merge it into the
accumulator under the store field name (wrapped as a to-be-merged marker
when a custom merge function exists), absent values throw the
missing-field error under a strict policy unless a defer or client
directive legitimizes them, and matching fragments splice their inner
selections into the same work set with identity-based deduplication.

processFieldValue (source lines 343 to 366): values without a nested
selection set and explicit nulls pass through unchanged (deep cloning
outside production mode preserves structure and is the identity here),
arrays map elementwise, and other values recurse into
processSelectionSet with no explicit identifier. -/
mutual
def processSelectionSet (fuel : Nat) (env : Env) (dataId? : Option String) (result : Fields) (ss : SelSet) (s : WState) : Res Value :=
  match fuel with
  | 0 => .fuelOut
  | f+1 =>
    match jsOrStr dataId? (env.policies.identify result ss).1 with
    | some d =>
      if (d, ss.1) ∈ s.written then .ok (.ref d) s
      else
        if env.hasReader && env.isFresh result d ss.1 then
          .ok (.ref d) { s with written := s.written ++ [(d, ss.1)] }
        else
          match runWorkLoop f env result (psTypename env (some d) result s.store)
              (initQueue ss) (initSeen ss)
              (initAcc (env.policies.identify result ss).2 (psTypename env (some d) result s.store))
              { s with written := s.written ++ [(d, ss.1)] } with
          | .ok acc2 s2 =>
            .ok (.ref d) (commitEntity env d (psTypename env (some d) result s.store) acc2 s2)
          | .err e s2 => .err e s2
          | .fuelOut => .fuelOut
    | none =>
      match runWorkLoop f env result (psTypename env none result s.store)
          (initQueue ss) (initSeen ss)
          (initAcc (env.policies.identify result ss).2 (psTypename env none result s.store)) s with
      | .ok acc2 s2 => .ok (.obj acc2) s2
      | .err e s2 => .err e s2
      | .fuelOut => .fuelOut

def runWorkLoop (fuel : Nat) (env : Env) (result : Fields) (tn : Option String) (queue : List Selection) (seen : List Nat) (acc : Fields) (s : WState) : Res Fields :=
  match fuel with
  | 0 => .fuelOut
  | f+1 =>
    match queue with
    | [] => .ok acc s
    | sel :: rest =>
      if !sel.incl then runWorkLoop f env result tn rest seen acc s
      else
        match sel with
        | .field sid name aliasName _ dc sub =>
          match result.lookup (aliasName.getD name) with
          | some v =>
            match processFieldValue f env v sub { s with log := s.log ++ [Event.fieldWalk sid] } with
            | .ok incoming s2 =>
              if env.policies.hasMergeFunction tn name then
                runWorkLoop f env result tn rest seen
                  (mergeFields acc
                    (Fields.cons (env.policies.getStoreFieldName tn name sid)
                      (Value.toMerge sid tn incoming) Fields.nil))
                  { s2 with shouldApplyMerges := true }
              else
                runWorkLoop f env result tn rest seen
                  (mergeFields acc
                    (Fields.cons (env.policies.getStoreFieldName tn name sid) incoming Fields.nil))
                  s2
            | .err e s2 => .err e s2
            | .fuelOut => .fuelOut
          | none =>
            if env.policies.usingPossibleTypes && !dc then
              .err (.missingField (aliasName.getD name) ((stringifyFields result).take 100)) s
            else runWorkLoop f env result tn rest seen acc s
        | .frag _ _ typeCond fragSS =>
          if env.policies.fragmentMatches typeCond tn then
            runWorkLoop f env result tn (addSels fragSS.2 rest seen).1 (addSels fragSS.2 rest seen).2 acc s
          else runWorkLoop f env result tn rest seen acc s
        | .missingFrag _ _ => runWorkLoop f env result tn rest seen acc s

def processFieldValue (fuel : Nat) (env : Env) (value : Value) (sub : Option SelSet) (s : WState) : Res Value :=
  match fuel with
  | 0 => .fuelOut
  | f+1 =>
    match sub with
    | none => .ok value s
    | some ss =>
      match value with
      | .null => .ok Value.null s
      | .arr items =>
        (match processFieldValues f env items ss s with
         | .ok items' s' => .ok (.arr items') s'
         | .err e s' => .err e s'
         | .fuelOut => .fuelOut)
      | .obj fields => processSelectionSet f env none fields ss s
      | .ref r => processSelectionSet f env none (Fields.cons "__ref" (Value.str r) Fields.nil) ss s
      | _ => processSelectionSet f env none Fields.nil ss s

def processFieldValues (fuel : Nat) (env : Env) (items : VList) (ss : SelSet) (s : WState) : Res VList :=
  match fuel with
  | 0 => .fuelOut
  | f+1 =>
    match items with
    | .nil => .ok VList.nil s
    | .cons v rest =>
      match processFieldValue f env v (some ss) s with
      | .ok v' s' =>
        (match processFieldValues f env rest ss s' with
         | .ok rest' s'' => .ok (VList.cons v' rest') s''
         | .err e s'' => .err e s''
         | .fuelOut => .fuelOut)
      | .err e s' => .err e s'
      | .fuelOut => .fuelOut
end

/-- The exposed write entry point (StoreWriter.writeToStore, source lines
111 to 151): runs processSelectionSet with a fresh per-write context
(empty applied-selection-sets record, cleared shouldApplyMerges flag),
turns the outcome into an optional Reference identifier, preferring the
returned Reference and falling back to a truthy explicit identifier, and
retains the returned identifier in the store as a reachable GC root. -/
def writeToStore (fuel : Nat) (env : Env) (dataId? : Option String) (result : Fields) (ss : SelSet) (s : WState) : Res (Option String) :=
  match fuel with
  | 0 => .fuelOut
  | f+1 =>
    match processSelectionSet f env dataId? result ss { s with written := [], shouldApplyMerges := false } with
    | .ok v s' =>
      let ref? : Option String :=
        match v with
        | .ref r => some r
        | _ =>
          match dataId? with
          | some d => if d = "" then none else some d
          | none => none
      match ref? with
      | some r => .ok (some r) { s' with store := s'.store.retain r }
      | none => .ok none s'
    | .err e s' => .err e s'
    | .fuelOut => .fuelOut

/-- State evolution along a write: the applied-selection-sets record only
gains entries and the event log only gains events. -/
def grows (s s' : WState) : Prop :=
  (∀ p, p ∈ s.written → p ∈ s'.written) ∧ (∃ t, s'.log = s.log ++ t)

/-- Lifting of grows to computation results (thrown errors also carry the
state reached so far; fuel exhaustion carries no state). -/
def resGrows {α : Type} (s : WState) : Res α → Prop
  | .ok _ s' => grows s s'
  | .err _ s' => grows s s'
  | .fuelOut => True

/-- Sample collaborators used by concrete witnesses: no identity is
derived for any object, field storage keys are the field names, no
custom merge functions, a strict (possible-types-aware) policy, and all
fragments match. -/
def envA : Env :=
  { policies :=
      { identify := fun _ _ => (none, none)
        rootTypenamesById := fun d => if d = "ROOT_QUERY" then some "Query" else none
        getStoreFieldName := fun _ n _ => n
        hasMergeFunction := fun _ _ => false
        usingPossibleTypes := true
        fragmentMatches := fun _ _ => true
        applyMerges := fun _ mf => mf }
    prod := false
    hasReader := false
    isFresh := fun _ _ _ => false
    now := 1000
    updateJobSucceeds := true }

/-- Sample empty starting state. -/
def st0 : WState :=
  { store := { records := [], retained := [] }
    written := []
    shouldApplyMerges := false
    jobs := []
    warnings := []
    log := [] }


def jobsFor (d : String) (jobs : List Job) : List Job :=
  jobs.filter (fun j => j.id == d)

def mfC3 : Fields := Fields.cons "maxAge" (Value.num 5000) Fields.nil

def stC4 : WState :=
  { store :=
      { records :=
          [("P", Fields.cons "__typename" (Value.str "T")
              (Fields.cons "f" (Value.obj (Fields.cons "a" (Value.num 1) Fields.nil)) Fields.nil))]
        retained := [] }
    written := []
    shouldApplyMerges := false
    jobs := []
    warnings := []
    log := [] }

def incC4 : Fields := Fields.cons "f" (Value.ref "X") Fields.nil

def stC1 : WState :=
  { store := { records := [("E", Fields.nil)], retained := [] }
    written := [("E", 3)]
    shouldApplyMerges := false
    jobs := []
    warnings := []
    log := [] }

def stC6 : WState :=
  { store := { records := [("Todo:1", Fields.nil)], retained := ["Todo:1"] }
    written := [("Todo:1", 7)]
    shouldApplyMerges := false
    jobs := []
    warnings := []
    log := [] }

def envB : Env :=
  { envA with
    policies :=
      { envA.policies with
        identify := fun _ _ =>
          (some "Todo:9", some (Fields.cons "id" (Value.str "9") Fields.nil)) } }

def stC8 : WState :=
  { store := { records := [("EXPL", Fields.cons "id" (Value.str "9") Fields.nil)], retained := [] }
    written := [("EXPL", 4)]
    shouldApplyMerges := false
    jobs := []
    warnings := []
    log := [] }

/-- Structural induction principle for record spines (the other motives
of the mutual recursor are trivial). -/
theorem fieldsInduction {motive : Fields → Prop}
    (nil : motive .nil)
    (cons : ∀ k v rest, motive rest → motive (.cons k v rest)) (f : Fields) : motive f :=
  @Fields.rec (fun _ => True) (fun _ => True) motive
    trivial (fun _ => trivial) (fun _ => trivial) (fun _ => trivial)
    (fun _ _ => trivial) (fun _ _ => trivial) (fun _ => trivial) (fun _ _ _ _ => trivial)
    trivial (fun _ _ _ _ => trivial)
    nil (fun k v rest _ ih => cons k v rest ih) f

/-- Structural induction principle for value lists. -/
theorem vlistInduction {motive : VList → Prop}
    (nil : motive .nil)
    (cons : ∀ v rest, motive rest → motive (.cons v rest)) (l : VList) : motive l :=
  @VList.rec (fun _ => True) motive (fun _ => True)
    trivial (fun _ => trivial) (fun _ => trivial) (fun _ => trivial)
    (fun _ _ => trivial) (fun _ _ => trivial) (fun _ => trivial) (fun _ _ _ _ => trivial)
    nil (fun v rest _ ih => cons v rest ih)
    trivial (fun _ _ _ _ _ => trivial) l

theorem Fields.keys_append (a b : Fields) : (a.append b).keys = a.keys ++ b.keys := by
  induction a using fieldsInduction with
  | nil => rfl
  | cons k v rest ih => simp [Fields.append, Fields.keys, ih]

theorem mergeOld_keys (e i : Fields) : (mergeOld e i).keys = e.keys := by
  induction e using fieldsInduction with
  | nil => rfl
  | cons k v rest ih => simp [mergeOld, Fields.keys, ih]

theorem mergeFields_keys (e i : Fields) :
    (mergeFields e i).keys = e.keys ++ (i.filterNotIn e).keys := by
  rw [mergeFields, Fields.keys_append, mergeOld_keys]

theorem Fields.lookup_eq_none_of_not_mem {e : Fields} {k : String} (h : k ∉ e.keys) :
    e.lookup k = none := by
  induction e using fieldsInduction with
  | nil => rfl
  | cons k' v rest ih =>
    rw [Fields.keys] at h
    simp only [List.mem_cons, not_or] at h
    rw [Fields.lookup, if_neg (fun hh => h.1 hh.symm)]
    exact ih h.2

theorem mem_keys_filterNotIn {i : Fields} {k : String} (e : Fields) (hk : k ∈ i.keys)
    (hn : e.lookup k = none) : k ∈ (i.filterNotIn e).keys := by
  induction i using fieldsInduction with
  | nil => simp [Fields.keys] at hk
  | cons k' v rest ih =>
    rw [Fields.keys, List.mem_cons] at hk
    cases hk with
    | inl h =>
      subst h
      rw [Fields.filterNotIn, hn]
      simp [Fields.keys]
    | inr h =>
      rw [Fields.filterNotIn]
      cases he : e.lookup k' with
      | some w => exact ih h
      | none =>
        rw [Fields.keys, List.mem_cons]
        exact Or.inr (ih h)

theorem mem_keys_mergeFields_left {e : Fields} {k : String} (i : Fields) (h : k ∈ e.keys) :
    k ∈ (mergeFields e i).keys := by
  rw [mergeFields_keys]
  exact List.mem_append_left _ h

theorem mem_keys_mergeFields_right {i : Fields} {k : String} (e : Fields) (h : k ∈ i.keys) :
    k ∈ (mergeFields e i).keys := by
  by_cases he : k ∈ e.keys
  · exact mem_keys_mergeFields_left i he
  · rw [mergeFields_keys]
    exact List.mem_append_right _ (mem_keys_filterNotIn e h (Fields.lookup_eq_none_of_not_mem he))

theorem mem_keys_set {f : Fields} {k' : String} (k : String) (v : Value) (h : k' ∈ f.keys) :
    k' ∈ (f.set k v).keys := by
  induction f using fieldsInduction with
  | nil => simp [Fields.keys] at h
  | cons k0 w rest ih =>
    rw [Fields.keys, List.mem_cons] at h
    rw [Fields.set]
    by_cases h0 : k0 = k
    · rw [if_pos h0, Fields.keys, List.mem_cons]
      cases h with
      | inl hh => exact Or.inl (h0 ▸ hh)
      | inr hh => exact Or.inr hh
    · rw [if_neg h0, Fields.keys, List.mem_cons]
      cases h with
      | inl hh => exact Or.inl hh
      | inr hh => exact Or.inr (ih hh)

theorem filterNotIn_nil (i : Fields) : i.filterNotIn Fields.nil = i := by
  induction i using fieldsInduction with
  | nil => rfl
  | cons k v rest ih => rw [Fields.filterNotIn, Fields.lookup, ih]

theorem mergeFields_nil_left (i : Fields) : mergeFields Fields.nil i = i := by
  rw [mergeFields, mergeOld, filterNotIn_nil, Fields.append]

theorem mem_keys_initAcc {ko : Fields} {k : String} (tn : Option String) (h : k ∈ ko.keys) :
    k ∈ (initAcc (some ko) tn).keys := by
  cases tn with
  | none => simpa [initAcc, mergeFields_nil_left] using h
  | some t =>
    simp only [initAcc, mergeFields_nil_left]
    exact mem_keys_set _ _ h

/-! Monotonicity infrastructure: the state only grows along a write. -/

theorem grows_refl (s : WState) : grows s s :=
  ⟨fun _ h => h, [], by simp⟩

theorem grows_trans {a b c : WState} (h1 : grows a b) (h2 : grows b c) : grows a c := by
  obtain ⟨w1, t1, hl1⟩ := h1
  obtain ⟨w2, t2, hl2⟩ := h2
  exact ⟨fun p hp => w2 p (w1 p hp), t1 ++ t2, by rw [hl2, hl1, List.append_assoc]⟩

theorem warnAboutDataLoss_cases (d : String) (inc : Fields) (k : String) (s : WState) :
    warnAboutDataLoss d inc k s = s ∨
    warnAboutDataLoss d inc k s =
      { s with warnings := s.warnings ++ [typeDot s.store d inc k],
               log := s.log ++ [Event.warned (typeDot s.store d inc k)] } := by
  rw [warnAboutDataLoss]
  split
  · exact Or.inl rfl
  · split
    · exact Or.inl rfl
    · split
      · exact Or.inl rfl
      · split
        · exact Or.inl rfl
        · split
          · exact Or.inl rfl
          · split
            · exact Or.inl rfl
            · exact Or.inr rfl

theorem warnAboutDataLoss_effects (d : String) (inc : Fields) (k : String) (s : WState) :
    (warnAboutDataLoss d inc k s).store = s.store ∧
    (warnAboutDataLoss d inc k s).written = s.written ∧
    (warnAboutDataLoss d inc k s).shouldApplyMerges = s.shouldApplyMerges ∧
    (warnAboutDataLoss d inc k s).jobs = s.jobs ∧
    (∃ t, (warnAboutDataLoss d inc k s).log = s.log ++ t) := by
  rcases warnAboutDataLoss_cases d inc k s with h | h
  · rw [h]
    exact ⟨rfl, rfl, rfl, rfl, [], by simp⟩
  · rw [h]
    exact ⟨rfl, rfl, rfl, rfl, [Event.warned (typeDot s.store d inc k)], rfl⟩

theorem warnLoop_effects (env : Env) (tn : Option String) (d : String) (mf : Fields)
    (ks : List String) (s : WState) :
    (warnLoop env tn d mf ks s).store = s.store ∧
    (warnLoop env tn d mf ks s).written = s.written ∧
    (warnLoop env tn d mf ks s).shouldApplyMerges = s.shouldApplyMerges ∧
    (warnLoop env tn d mf ks s).jobs = s.jobs ∧
    (∃ t, (warnLoop env tn d mf ks s).log = s.log ++ t) := by
  induction ks generalizing s with
  | nil => exact ⟨rfl, rfl, rfl, rfl, [], by simp [warnLoop]⟩
  | cons k rest ih =>
    rw [warnLoop]
    have base :
        ∀ s' : WState, s' = (if env.policies.hasMergeFunction tn (fieldNameFromStoreName k) then s
            else warnAboutDataLoss d mf k s) →
        s'.store = s.store ∧ s'.written = s.written ∧
        s'.shouldApplyMerges = s.shouldApplyMerges ∧ s'.jobs = s.jobs ∧
        ∃ t, s'.log = s.log ++ t := by
      intro s' hs'
      by_cases hm : env.policies.hasMergeFunction tn (fieldNameFromStoreName k)
      · rw [hs', if_pos hm]
        exact ⟨rfl, rfl, rfl, rfl, [], by simp⟩
      · rw [hs', if_neg hm]
        exact warnAboutDataLoss_effects d mf k s
    obtain ⟨b1, b2, b3, b4, t1, b5⟩ := base _ rfl
    obtain ⟨i1, i2, i3, i4, t2, i5⟩ := ih (if env.policies.hasMergeFunction tn (fieldNameFromStoreName k) then s
      else warnAboutDataLoss d mf k s)
    refine ⟨?_, ?_, ?_, ?_, t1 ++ t2, ?_⟩
    · rw [i1, b1]
    · rw [i2, b2]
    · rw [i3, b3]
    · rw [i4, b4]
    · rw [i5, b5, List.append_assoc]

theorem commitWarn_effects (env : Env) (tn : Option String) (d : String) (mf : Fields) (s : WState) :
    (commitWarn env tn d mf s).store = s.store ∧
    (commitWarn env tn d mf s).written = s.written ∧
    (commitWarn env tn d mf s).shouldApplyMerges = s.shouldApplyMerges ∧
    (commitWarn env tn d mf s).jobs = s.jobs ∧
    (∃ t, (commitWarn env tn d mf s).log = s.log ++ t) := by
  rw [commitWarn]
  by_cases hp : env.prod
  · rw [if_pos hp]
    exact ⟨rfl, rfl, rfl, rfl, [], by simp⟩
  · rw [if_neg hp]
    exact warnLoop_effects env tn d mf mf.keys s

theorem commitSchedule_effects (env : Env) (d : String) (mf : Fields) (s : WState) :
    (commitSchedule env d mf s).store = s.store ∧
    (commitSchedule env d mf s).written = s.written ∧
    (commitSchedule env d mf s).shouldApplyMerges = s.shouldApplyMerges ∧
    (commitSchedule env d mf s).warnings = s.warnings ∧
    (commitSchedule env d mf s).log = s.log := by
  rw [commitSchedule]
  split
  · exact ⟨rfl, rfl, rfl, rfl, rfl⟩
  · exact ⟨rfl, rfl, rfl, rfl, rfl⟩

theorem commitEntity_grows (env : Env) (d : String) (tn : Option String) (mf0 : Fields) (s : WState) :
    grows s (commitEntity env d tn mf0 s) := by
  rw [commitEntity]
  obtain ⟨w1, ww1, _, _, t1, wl1⟩ := commitWarn_effects env tn d
    (if s.shouldApplyMerges then env.policies.applyMerges d mf0 else mf0) s
  obtain ⟨_, sw, _, _, sl⟩ := commitSchedule_effects env d
    (if s.shouldApplyMerges then env.policies.applyMerges d mf0 else mf0)
    (commitWarn env tn d (if s.shouldApplyMerges then env.policies.applyMerges d mf0 else mf0) s)
  constructor
  · intro p hp
    show p ∈ (commitSchedule _ _ _ _).written
    rw [sw, ww1]
    exact hp
  · exact ⟨t1, by rw [commitStore]; simpa [sl] using wl1⟩

theorem resGrows_trans_left {α : Type} {s s1 : WState} {r : Res α} (h : grows s s1)
    (h2 : resGrows s1 r) : resGrows s r := by
  cases r with
  | ok a s' => exact grows_trans h h2
  | err e s' => exact grows_trans h h2
  | fuelOut => exact trivial

theorem grows_append_written (s : WState) (p : String × Nat) :
    grows s { s with written := s.written ++ [p] } :=
  ⟨fun _ hq => List.mem_append_left _ hq, [], by simp⟩

theorem grows_append_log (s : WState) (e : Event) :
    grows s { s with log := s.log ++ [e] } :=
  ⟨fun _ hq => hq, [e], rfl⟩

theorem grows_set_sam (s : WState) (b : Bool) :
    grows s { s with shouldApplyMerges := b } :=
  ⟨fun _ hq => hq, [], by simp⟩

set_option maxHeartbeats 1000000

theorem growsAll (fuel : Nat) :
    (∀ env d? result ss s, resGrows s (processSelectionSet fuel env d? result ss s)) ∧
    (∀ env result tn queue seen acc s, resGrows s (runWorkLoop fuel env result tn queue seen acc s)) ∧
    (∀ env v sub s, resGrows s (processFieldValue fuel env v sub s)) ∧
    (∀ env items ss s, resGrows s (processFieldValues fuel env items ss s)) := by
  induction fuel with
  | zero =>
    refine ⟨fun env d? result ss s => ?_, fun env result tn queue seen acc s => ?_,
      fun env v sub s => ?_, fun env items ss s => ?_⟩ <;> exact trivial
  | succ f ih =>
    obtain ⟨ihPs, ihLoop, ihPfv, ihPfvs⟩ := ih
    refine ⟨?_, ?_, ?_, ?_⟩
    · -- processSelectionSet
      intro env d? result ss s
      rw [processSelectionSet.eq_def]
      simp only []
      cases hd : jsOrStr d? (env.policies.identify result ss).1 with
      | some d =>
        simp only []
        by_cases hw : (d, ss.1) ∈ s.written
        · rw [if_pos hw]
          exact grows_refl s
        · rw [if_neg hw]
          by_cases hf : (env.hasReader && env.isFresh result d ss.1) = true
          · rw [if_pos hf]
            exact grows_append_written s (d, ss.1)
          · rw [if_neg hf]
            have hl := ihLoop env result (psTypename env (some d) result s.store)
              (initQueue ss) (initSeen ss)
              (initAcc (env.policies.identify result ss).2 (psTypename env (some d) result s.store))
              { s with written := s.written ++ [(d, ss.1)] }
            cases hr : runWorkLoop f env result (psTypename env (some d) result s.store)
                (initQueue ss) (initSeen ss)
                (initAcc (env.policies.identify result ss).2 (psTypename env (some d) result s.store))
                { s with written := s.written ++ [(d, ss.1)] } with
            | ok acc2 s2 =>
              rw [hr] at hl
              exact resGrows_trans_left (grows_append_written s (d, ss.1))
                (grows_trans hl (commitEntity_grows env d _ acc2 s2))
            | err e s2 =>
              rw [hr] at hl
              exact resGrows_trans_left (grows_append_written s (d, ss.1)) hl
            | fuelOut => exact trivial
      | none =>
        simp only []
        have hl := ihLoop env result (psTypename env none result s.store)
          (initQueue ss) (initSeen ss)
          (initAcc (env.policies.identify result ss).2 (psTypename env none result s.store)) s
        cases hr : runWorkLoop f env result (psTypename env none result s.store)
            (initQueue ss) (initSeen ss)
            (initAcc (env.policies.identify result ss).2 (psTypename env none result s.store)) s with
        | ok acc2 s2 => rw [hr] at hl; exact hl
        | err e s2 => rw [hr] at hl; exact hl
        | fuelOut => exact trivial
    · -- runWorkLoop
      intro env result tn queue seen acc s
      rw [runWorkLoop.eq_def]
      simp only []
      cases queue with
      | nil => exact grows_refl s
      | cons sel rest =>
        simp only []
        cases sel with
        | field sid name al incl dc sub =>
          cases incl with
          | false => exact ihLoop env result tn rest seen acc s
          | true =>
            simp only [Selection.incl, Bool.not_true, Bool.false_eq_true, if_false]
            cases hv : result.lookup (al.getD name) with
            | some v =>
              simp only []
              have hpf := ihPfv env v sub { s with log := s.log ++ [Event.fieldWalk sid] }
              cases hr : processFieldValue f env v sub { s with log := s.log ++ [Event.fieldWalk sid] } with
              | ok incoming s2 =>
                rw [hr] at hpf
                simp only []
                by_cases hm : (env.policies.hasMergeFunction tn name) = true
                · rw [if_pos hm]
                  have h3 := ihLoop env result tn rest seen
                    (mergeFields acc
                      (Fields.cons (env.policies.getStoreFieldName tn name sid)
                        (Value.toMerge sid tn incoming) Fields.nil))
                    { s2 with shouldApplyMerges := true }
                  exact resGrows_trans_left (grows_append_log s (Event.fieldWalk sid))
                    (resGrows_trans_left (grows_trans hpf (grows_set_sam s2 true)) h3)
                · rw [if_neg hm]
                  have h3 := ihLoop env result tn rest seen
                    (mergeFields acc
                      (Fields.cons (env.policies.getStoreFieldName tn name sid) incoming Fields.nil)) s2
                  exact resGrows_trans_left (grows_append_log s (Event.fieldWalk sid))
                    (resGrows_trans_left hpf h3)
              | err e s2 =>
                rw [hr] at hpf
                exact resGrows_trans_left (grows_append_log s (Event.fieldWalk sid)) hpf
              | fuelOut => exact trivial
            | none =>
              simp only []
              by_cases hs : (env.policies.usingPossibleTypes && !dc) = true
              · rw [if_pos hs]
                exact grows_refl s
              · rw [if_neg hs]
                exact ihLoop env result tn rest seen acc s
        | frag sid incl typeCond fragSS =>
          cases incl with
          | false => exact ihLoop env result tn rest seen acc s
          | true =>
            simp only [Selection.incl, Bool.not_true, Bool.false_eq_true, if_false]
            by_cases hm : (env.policies.fragmentMatches typeCond tn) = true
            · rw [if_pos hm]
              exact ihLoop env result tn (addSels fragSS.2 rest seen).1 (addSels fragSS.2 rest seen).2 acc s
            · rw [if_neg hm]
              exact ihLoop env result tn rest seen acc s
        | missingFrag sid incl =>
          cases incl with
          | false => exact ihLoop env result tn rest seen acc s
          | true => exact ihLoop env result tn rest seen acc s
    · -- processFieldValue
      intro env v sub s
      rw [processFieldValue.eq_def]
      simp only []
      cases sub with
      | none => exact grows_refl s
      | some ss =>
        simp only []
        cases v with
        | null => exact grows_refl s
        | arr items =>
          simp only []
          have hl := ihPfvs env items ss s
          cases hr : processFieldValues f env items ss s with
          | ok items' s' => rw [hr] at hl; exact hl
          | err e s' => rw [hr] at hl; exact hl
          | fuelOut => exact trivial
        | obj fields => exact ihPs env none fields ss s
        | ref r => exact ihPs env none (Fields.cons "__ref" (Value.str r) Fields.nil) ss s
        | str a => exact ihPs env none Fields.nil ss s
        | num a => exact ihPs env none Fields.nil ss s
        | bool a => exact ihPs env none Fields.nil ss s
        | toMerge a b c => exact ihPs env none Fields.nil ss s
    · -- processFieldValues
      intro env items ss s
      rw [processFieldValues.eq_def]
      simp only []
      cases items with
      | nil => exact grows_refl s
      | cons v rest =>
        simp only []
        have h1 := ihPfv env v (some ss) s
        cases hr : processFieldValue f env v (some ss) s with
        | ok v' s' =>
          rw [hr] at h1
          simp only []
          have h2 := ihPfvs env rest ss s'
          cases hr2 : processFieldValues f env rest ss s' with
          | ok rest' s'' => rw [hr2] at h2; exact grows_trans h1 h2
          | err e s'' => rw [hr2] at h2; exact grows_trans h1 h2
          | fuelOut => exact trivial
        | err e s' => rw [hr] at h1; exact h1
        | fuelOut => exact trivial

/-! Return-shape lemma for processSelectionSet and key preservation of
the work loop. -/

theorem psShape (f : Nat) (env : Env) (d? : Option String) (result : Fields) (ss : SelSet)
    (s : WState) {v : Value} {s' : WState}
    (h : processSelectionSet (f+1) env d? result ss s = Res.ok v s') :
    (∀ d, jsOrStr d? (env.policies.identify result ss).1 = some d → v = Value.ref d) ∧
    (jsOrStr d? (env.policies.identify result ss).1 = none →
      ∃ fields, v = Value.obj fields ∧
        runWorkLoop f env result (psTypename env none result s.store) (initQueue ss) (initSeen ss)
          (initAcc (env.policies.identify result ss).2 (psTypename env none result s.store)) s =
          Res.ok fields s') := by
  rw [processSelectionSet.eq_def] at h
  simp only [] at h
  constructor
  · intro d hd
    rw [hd] at h
    simp only [] at h
    by_cases hw : (d, ss.1) ∈ s.written
    · rw [if_pos hw] at h
      injection h with h1 h2
      exact h1.symm
    · rw [if_neg hw] at h
      by_cases hf : (env.hasReader && env.isFresh result d ss.1) = true
      · rw [if_pos hf] at h
        injection h with h1 h2
        exact h1.symm
      · rw [if_neg hf] at h
        cases hr : runWorkLoop f env result (psTypename env (some d) result s.store)
            (initQueue ss) (initSeen ss)
            (initAcc (env.policies.identify result ss).2 (psTypename env (some d) result s.store))
            { s with written := s.written ++ [(d, ss.1)] } with
        | ok acc2 s2 =>
          rw [hr] at h
          simp only [] at h
          injection h with h1 h2
          exact h1.symm
        | err e s2 => rw [hr] at h; simp only [] at h; exact Res.noConfusion h
        | fuelOut => rw [hr] at h; simp only [] at h; exact Res.noConfusion h
  · intro hd
    rw [hd] at h
    simp only [] at h
    cases hr : runWorkLoop f env result (psTypename env none result s.store)
        (initQueue ss) (initSeen ss)
        (initAcc (env.policies.identify result ss).2 (psTypename env none result s.store)) s with
    | ok acc2 s2 =>
      rw [hr] at h
      simp only [] at h
      injection h with h1 h2
      exact ⟨acc2, h1.symm, by rw [h2]⟩
    | err e s2 => rw [hr] at h; simp only [] at h; exact Res.noConfusion h
    | fuelOut => rw [hr] at h; simp only [] at h; exact Res.noConfusion h

theorem loopAccKeys (fuel : Nat) :
    ∀ env result tn queue seen acc s acc' s',
      runWorkLoop fuel env result tn queue seen acc s = Res.ok acc' s' →
      ∀ k, k ∈ acc.keys → k ∈ acc'.keys := by
  induction fuel with
  | zero =>
    intro env result tn queue seen acc s acc' s' h
    exact Res.noConfusion h
  | succ f ih =>
    intro env result tn queue seen acc s acc' s' h k hk
    rw [runWorkLoop.eq_def] at h
    simp only [] at h
    cases queue with
    | nil =>
      injection h with h1 h2
      rw [← h1]
      exact hk
    | cons sel rest =>
      cases sel with
      | field sid name al incl dc sub =>
        cases incl with
        | false => exact ih env result tn rest seen acc s acc' s' h k hk
        | true =>
          simp only [Selection.incl, Bool.not_true, Bool.false_eq_true, if_false] at h
          cases hv : result.lookup (al.getD name) with
          | some v =>
            rw [hv] at h
            simp only [] at h
            cases hr : processFieldValue f env v sub { s with log := s.log ++ [Event.fieldWalk sid] } with
            | ok incoming s2 =>
              rw [hr] at h
              simp only [] at h
              by_cases hm : (env.policies.hasMergeFunction tn name) = true
              · rw [if_pos hm] at h
                exact ih env result tn rest seen _ _ acc' s' h k
                  (mem_keys_mergeFields_left _ hk)
              · rw [if_neg hm] at h
                exact ih env result tn rest seen _ _ acc' s' h k
                  (mem_keys_mergeFields_left _ hk)
            | err e s2 => rw [hr] at h; simp only [] at h; exact Res.noConfusion h
            | fuelOut => rw [hr] at h; simp only [] at h; exact Res.noConfusion h
          | none =>
            rw [hv] at h
            simp only [] at h
            by_cases hs : (env.policies.usingPossibleTypes && !dc) = true
            · rw [if_pos hs] at h
              exact Res.noConfusion h
            · rw [if_neg hs] at h
              exact ih env result tn rest seen acc s acc' s' h k hk
      | frag sid incl typeCond fragSS =>
        cases incl with
        | false => exact ih env result tn rest seen acc s acc' s' h k hk
        | true =>
          simp only [Selection.incl, Bool.not_true, Bool.false_eq_true, if_false] at h
          by_cases hm : (env.policies.fragmentMatches typeCond tn) = true
          · rw [if_pos hm] at h
            exact ih env result tn _ _ acc s acc' s' h k hk
          · rw [if_neg hm] at h
            exact ih env result tn rest seen acc s acc' s' h k hk
      | missingFrag sid incl =>
        cases incl with
        | false => exact ih env result tn rest seen acc s acc' s' h k hk
        | true => exact ih env result tn rest seen acc s acc' s' h k hk


theorem find?_none_of_jobs {jobs : List Job} {d : String} (h : ∀ j ∈ jobs, j.id ≠ d) :
    jobs.find? (fun j => j.id == d) = none :=
  List.find?_eq_none.mpr (fun j hj => by simp [h j hj])

theorem find?_append_single {jobs : List Job} {d : String} (h : ∀ j ∈ jobs, j.id ≠ d)
    (j0 : Job) (hj0 : j0.id = d) :
    (jobs ++ [j0]).find? (fun j => j.id == d) = some j0 := by
  induction jobs with
  | nil => simp [List.find?, hj0]
  | cons j rest ih =>
    rw [List.cons_append, List.find?]
    have hne : (j.id == d) = false := by
      simp [h j (List.mem_cons_self j rest)]
    rw [hne]
    exact ih (fun j' hj' => h j' (List.mem_cons_of_mem _ hj'))

theorem updateFirstJob_append {jobs : List Job} {d : String} (t1 t2 : Int)
    (h : ∀ j ∈ jobs, j.id ≠ d) :
    updateFirstJob (jobs ++ [⟨d, t1⟩]) d t2 = jobs ++ [⟨d, t2⟩] := by
  induction jobs with
  | nil => simp [updateFirstJob]
  | cons j rest ih =>
    rw [List.cons_append, updateFirstJob, if_neg (h j (List.mem_cons_self j rest))]
    rw [ih (fun j' hj' => h j' (List.mem_cons_of_mem _ hj'))]
    rw [List.cons_append]

theorem scheduleJobs_new {env : Env} {d : String} {jobs : List Job} (t : Int)
    (h : ∀ j ∈ jobs, j.id ≠ d) :
    scheduleJobs env d t jobs = jobs ++ [⟨d, t⟩] := by
  rw [scheduleJobs, find?_none_of_jobs h]

theorem scheduleJobs_update {env : Env} {d : String} {jobs : List Job} (t : Int)
    (hs : env.updateJobSucceeds = true) {j : Job}
    (hj : jobs.find? (fun x => x.id == d) = some j) :
    scheduleJobs env d t jobs = updateFirstJob jobs d t := by
  rw [scheduleJobs, hj]
  simp only [hs, if_true]

theorem scheduleJobs_fallback {env : Env} {d : String} {jobs : List Job} (t : Int)
    (hs : env.updateJobSucceeds = false) {j : Job}
    (hj : jobs.find? (fun x => x.id == d) = some j) :
    scheduleJobs env d t jobs = jobs ++ [⟨d, env.now + 30000⟩] := by
  rw [scheduleJobs, hj]
  simp only [hs, Bool.false_eq_true, if_false]

theorem jobsFor_twice {env : Env} {d : String} {jobs : List Job} (t1 t2 : Int)
    (hs : env.updateJobSucceeds = true) (h : ∀ j ∈ jobs, j.id ≠ d) :
    jobsFor d (scheduleJobs env d t2 (scheduleJobs env d t1 jobs)) = [⟨d, t2⟩] := by
  rw [scheduleJobs_new t1 h,
    scheduleJobs_update t2 hs (find?_append_single h ⟨d, t1⟩ rfl),
    updateFirstJob_append t1 t2 h, jobsFor, List.filter_append]
  have h1 : jobs.filter (fun j => j.id == d) = [] := by
    rw [List.filter_eq_nil_iff]
    intro j hj
    simp [h j hj]
  rw [h1]
  simp

theorem commitEntity_jobs (env : Env) (d : String) (tn : Option String) (mf : Fields) (s : WState)
    (hsam : s.shouldApplyMerges = false)
    (hroot : d ≠ "ROOT_QUERY") (hta : jsTruthy (mf.lookup "maxAge") = true) :
    (commitEntity env d tn mf s).jobs =
      scheduleJobs env d (jsToNumber ((mf.lookup "maxAge").getD Value.null)) s.jobs := by
  rw [commitEntity]
  simp only [hsam, Bool.false_eq_true, if_false, commitStore]
  rw [commitSchedule, if_pos ⟨hroot, hta⟩, scheduleEviction]
  obtain ⟨_, _, _, hw4, _⟩ := commitWarn_effects env tn d mf s
  rw [hw4]

theorem commitEntity_prod_silent (env : Env) (d : String) (tn : Option String) (mf : Fields)
    (s : WState) (hp : env.prod = true) :
    (commitEntity env d tn mf s).warnings = s.warnings ∧
    (commitEntity env d tn mf s).log = s.log := by
  rw [commitEntity]
  simp only [commitStore]
  obtain ⟨_, _, _, hcw, hcl⟩ := commitSchedule_effects env d
    (if s.shouldApplyMerges = true then env.policies.applyMerges d mf else mf)
    (commitWarn env tn d (if s.shouldApplyMerges = true then env.policies.applyMerges d mf else mf) s)
  constructor
  · rw [hcw, commitWarn, if_pos hp]
  · rw [hcl, commitWarn, if_pos hp]

/-! Branch lemmas for the data-loss guard. -/

theorem warn_silent_no_existing {d : String} {inc : Fields} {k : String} {s : WState}
    (h : childAt s.store (Value.ref d) k = none) :
    warnAboutDataLoss d inc k s = s := by
  rw [warnAboutDataLoss, h]

theorem warn_silent_no_incoming {d : String} {inc : Fields} {k : String} {s : WState}
    (h : childAt s.store (Value.obj inc) k = none) :
    warnAboutDataLoss d inc k s = s := by
  rw [warnAboutDataLoss]
  cases he : childAt s.store (Value.ref d) k with
  | none => simp only []
  | some ex =>
    simp only []
    rw [h]

theorem warn_silent_ref {d : String} {inc : Fields} {k : String} {s : WState} {ex : Value}
    (he : childAt s.store (Value.ref d) k = some ex) (hr : ex.isRefB = true) :
    warnAboutDataLoss d inc k s = s := by
  rw [warnAboutDataLoss, he]
  simp only []
  cases hi : childAt s.store (Value.obj inc) k with
  | none => simp only []
  | some ic =>
    simp only []
    rw [if_pos hr]

theorem warn_silent_equal {d : String} {inc : Fields} {k : String} {s : WState} {ex ic : Value}
    (he : childAt s.store (Value.ref d) k = some ex)
    (hi : childAt s.store (Value.obj inc) k = some ic)
    (heq : valueEqual ex ic = true) :
    warnAboutDataLoss d inc k s = s := by
  rw [warnAboutDataLoss, he]
  simp only []
  rw [hi]
  simp only []
  by_cases hr : ex.isRefB = true
  · rw [if_pos hr]
  · rw [if_neg hr, if_pos heq]

theorem warn_silent_subset {d : String} {inc : Fields} {k : String} {s : WState} {ex ic : Value}
    (he : childAt s.store (Value.ref d) k = some ex)
    (hi : childAt s.store (Value.obj inc) k = some ic)
    (hrf : ex.isRefB = false) (hsub : allKeysPresent s.store ex ic = true) :
    warnAboutDataLoss d inc k s = s := by
  rw [warnAboutDataLoss, he]
  simp only []
  rw [hi]
  simp only []
  rw [if_neg (by simp [hrf])]
  by_cases heq : valueEqual ex ic = true
  · rw [if_pos heq]
  · rw [if_neg heq, if_pos hsub]

theorem warn_silent_mem {d : String} {inc : Fields} {k : String} {s : WState}
    (hm : typeDot s.store d inc k ∈ s.warnings) :
    warnAboutDataLoss d inc k s = s := by
  rw [warnAboutDataLoss]
  cases he : childAt s.store (Value.ref d) k with
  | none => simp only []
  | some ex =>
    simp only []
    cases hi : childAt s.store (Value.obj inc) k with
    | none => simp only []
    | some ic =>
      simp only []
      by_cases hr : ex.isRefB = true
      · rw [if_pos hr]
      · rw [if_neg hr]
        by_cases heq : valueEqual ex ic = true
        · rw [if_pos heq]
        · rw [if_neg heq]
          by_cases hsub : allKeysPresent s.store ex ic = true
          · rw [if_pos hsub]
          · rw [if_neg hsub, if_pos hm]

theorem warn_emit {d : String} {inc : Fields} {k : String} {s : WState} {ex ic : Value}
    (he : childAt s.store (Value.ref d) k = some ex)
    (hi : childAt s.store (Value.obj inc) k = some ic)
    (hrf : ex.isRefB = false) (heq : valueEqual ex ic = false)
    (hsub : allKeysPresent s.store ex ic = false)
    (hm : typeDot s.store d inc k ∉ s.warnings) :
    warnAboutDataLoss d inc k s =
      { s with warnings := s.warnings ++ [typeDot s.store d inc k],
               log := s.log ++ [Event.warned (typeDot s.store d inc k)] } := by
  rw [warnAboutDataLoss, he]
  simp only []
  rw [hi]
  simp only []
  rw [if_neg (by simp [hrf]), if_neg (by simp [heq]), if_neg (by simp [hsub]), if_neg hm]

theorem warnAboutDataLoss_idem (d : String) (inc : Fields) (k : String) (s : WState) :
    warnAboutDataLoss d inc k (warnAboutDataLoss d inc k s) = warnAboutDataLoss d inc k s := by
  rcases warnAboutDataLoss_cases d inc k s with h | h
  · rw [h]
    exact h
  · rw [h]
    exact warn_silent_mem (by
      show typeDot s.store d inc k ∈ s.warnings ++ [typeDot s.store d inc k]
      exact List.mem_append_right _ (List.mem_singleton.mpr rfl))






theorem commitEntity_written (env : Env) (d : String) (tn : Option String) (mf0 : Fields)
    (s : WState) : (commitEntity env d tn mf0 s).written = s.written := by
  rw [commitEntity]
  simp only [commitStore]
  obtain ⟨_, hw, _, _, _⟩ := commitSchedule_effects env d
    (if s.shouldApplyMerges then env.policies.applyMerges d mf0 else mf0)
    (commitWarn env tn d (if s.shouldApplyMerges then env.policies.applyMerges d mf0 else mf0) s)
  rw [hw]
  obtain ⟨_, hw2, _, _, _⟩ := commitWarn_effects env tn d
    (if s.shouldApplyMerges then env.policies.applyMerges d mf0 else mf0) s
  exact hw2

theorem commitEntity_store (env : Env) (d : String) (tn : Option String) (mf0 : Fields)
    (s : WState) :
    (commitEntity env d tn mf0 s).store =
      s.store.mergeRecord d (if s.shouldApplyMerges then env.policies.applyMerges d mf0 else mf0) := by
  rw [commitEntity]
  simp only [commitStore]
  obtain ⟨hs1, _, _, _, _⟩ := commitSchedule_effects env d
    (if s.shouldApplyMerges then env.policies.applyMerges d mf0 else mf0)
    (commitWarn env tn d (if s.shouldApplyMerges then env.policies.applyMerges d mf0 else mf0) s)
  rw [hs1]
  obtain ⟨hs2, _, _, _, _⟩ := commitWarn_effects env tn d
    (if s.shouldApplyMerges then env.policies.applyMerges d mf0 else mf0) s
  rw [hs2]

theorem mem_retain_self (st : Store) (d : String) : d ∈ (st.retain d).retained := by
  rw [Store.retain]
  by_cases h : d ∈ st.retained
  · rw [if_pos h]
    exact h
  · rw [if_neg h]
    exact List.mem_append_right _ (List.mem_singleton.mpr rfl)

theorem lookupRecord_setRecord_self (recs : List (String × Fields)) (d : String) (r : Fields) :
    lookupRecord (setRecord recs d r) d = some r := by
  induction recs with
  | nil => simp [setRecord, lookupRecord]
  | cons p rest ih =>
    obtain ⟨k, q⟩ := p
    rw [setRecord]
    by_cases hp : k = d
    · rw [if_pos hp, lookupRecord, if_pos rfl]
    · rw [if_neg hp, lookupRecord, if_neg hp]
      exact ih

/-- C3: for every non-root entity record committed with a truthy
time-to-live marker, the commit invokes the scheduler reconciliation on
the job list; the reconciliation adds a new job at the marker's
execution time when no pending job carries the identifier, updates the
pending job's execution time in place when one exists and the update
succeeds, adds a single fallback job thirty seconds in the future when
the update fails, and two successive writes of the same identifier with
different markers leave exactly one active job at the latest time. -/
theorem c3_ttl_reconciliation (env : Env) (d : String) (tn : Option String) (mf : Fields)
    (s : WState) (t1 t2 : Int)
    (hroot : d ≠ "ROOT_QUERY") (hta : jsTruthy (mf.lookup "maxAge") = true)
    (hsam : s.shouldApplyMerges = false) :
    ((commitEntity env d tn mf s).jobs =
        scheduleJobs env d (jsToNumber ((mf.lookup "maxAge").getD Value.null)) s.jobs) ∧
    ((∀ j ∈ s.jobs, j.id ≠ d) → scheduleJobs env d t1 s.jobs = s.jobs ++ [⟨d, t1⟩]) ∧
    (env.updateJobSucceeds = true → ∀ j, s.jobs.find? (fun x => x.id == d) = some j →
      scheduleJobs env d t1 s.jobs = updateFirstJob s.jobs d t1) ∧
    (env.updateJobSucceeds = false → ∀ j, s.jobs.find? (fun x => x.id == d) = some j →
      scheduleJobs env d t1 s.jobs = s.jobs ++ [⟨d, env.now + 30000⟩]) ∧
    (env.updateJobSucceeds = true → (∀ j ∈ s.jobs, j.id ≠ d) →
      jobsFor d (scheduleJobs env d t2 (scheduleJobs env d t1 s.jobs)) = [⟨d, t2⟩]) :=
  ⟨commitEntity_jobs env d tn mf s hsam hroot hta,
   fun h => scheduleJobs_new t1 h,
   fun hs _ hj => scheduleJobs_update t1 hs hj,
   fun hs _ hj => scheduleJobs_fallback t1 hs hj,
   fun hs h => jobsFor_twice t1 t2 hs h⟩

/-- C3 witness at a concrete record with a maxAge marker: two writes with
markers 5000 and 9000 leave exactly one pending job at 9000. -/
theorem c3_witness :
    jsTruthy (mfC3.lookup "maxAge") = true ∧
    jobsFor "Todo:1" (scheduleJobs envA "Todo:1" 9000 (scheduleJobs envA "Todo:1" 5000 st0.jobs)) =
      [⟨"Todo:1", 9000⟩] :=
  ⟨rfl, (c3_ttl_reconciliation envA "Todo:1" none mfC3 st0 5000 9000 (by decide) rfl rfl).2.2.2.2
    rfl (fun j hj => absurd hj (List.not_mem_nil j))⟩

/-- C4 (amended): the data-loss guard is silent when the existing or
incoming sub-value is absent or not object-shaped, when the existing
sub-value is a Reference, when the two are structurally equal, or when
every key of the existing sub-value is present in the incoming one
(reading through the store); otherwise it emits exactly one warning per
parent-type and field-name pair for the lifetime of the process, it
never modifies cached data, it is idempotent, and the whole guard stage
is skipped in production mode. -/
theorem c4_data_loss_guard (d : String) (inc : Fields) (k : String) (s : WState) :
    ((warnAboutDataLoss d inc k s).store = s.store ∧
     (warnAboutDataLoss d inc k s).written = s.written ∧
     (warnAboutDataLoss d inc k s).jobs = s.jobs) ∧
    (childAt s.store (Value.ref d) k = none → warnAboutDataLoss d inc k s = s) ∧
    (childAt s.store (Value.obj inc) k = none → warnAboutDataLoss d inc k s = s) ∧
    (∀ ex, childAt s.store (Value.ref d) k = some ex → ex.isRefB = true →
      warnAboutDataLoss d inc k s = s) ∧
    (∀ ex ic, childAt s.store (Value.ref d) k = some ex →
      childAt s.store (Value.obj inc) k = some ic → valueEqual ex ic = true →
      warnAboutDataLoss d inc k s = s) ∧
    (∀ ex ic, childAt s.store (Value.ref d) k = some ex →
      childAt s.store (Value.obj inc) k = some ic → ex.isRefB = false →
      allKeysPresent s.store ex ic = true → warnAboutDataLoss d inc k s = s) ∧
    (typeDot s.store d inc k ∈ s.warnings → warnAboutDataLoss d inc k s = s) ∧
    (∀ ex ic, childAt s.store (Value.ref d) k = some ex →
      childAt s.store (Value.obj inc) k = some ic → ex.isRefB = false →
      valueEqual ex ic = false → allKeysPresent s.store ex ic = false →
      typeDot s.store d inc k ∉ s.warnings →
      warnAboutDataLoss d inc k s =
        { s with warnings := s.warnings ++ [typeDot s.store d inc k],
                 log := s.log ++ [Event.warned (typeDot s.store d inc k)] }) ∧
    (warnAboutDataLoss d inc k (warnAboutDataLoss d inc k s) = warnAboutDataLoss d inc k s) ∧
    (∀ env tn mf, env.prod = true →
      (commitEntity env d tn mf s).warnings = s.warnings ∧
      (commitEntity env d tn mf s).log = s.log) := by
  obtain ⟨e1, e2, _, e4, _⟩ := warnAboutDataLoss_effects d inc k s
  exact ⟨⟨e1, e2, e4⟩,
    fun h => warn_silent_no_existing h,
    fun h => warn_silent_no_incoming h,
    fun _ he hr => warn_silent_ref he hr,
    fun _ _ he hi heq => warn_silent_equal he hi heq,
    fun _ _ he hi hrf hsub => warn_silent_subset he hi hrf hsub,
    fun hm => warn_silent_mem hm,
    fun _ _ he hi hrf heq hsub hm => warn_emit he hi hrf heq hsub hm,
    warnAboutDataLoss_idem d inc k s,
    fun env tn mf hp => commitEntity_prod_silent env d tn mf s hp⟩

/-- C4 counterexample: the claim as stated promises no warning whenever
the incoming sub-value is a Reference, but when the incoming sub-value
is the Reference X whose target record is absent from the store (so the
subset check fails after dereferencing), the guard does emit a warning;
only an existing-side Reference suppresses the warning. -/
theorem c4_counterexample :
    childAt stC4.store (Value.obj incC4) "f" = some (Value.ref "X") ∧
    (warnAboutDataLoss "P" incC4 "f" stC4).log = stC4.log ++ [Event.warned "T.f"] :=
  ⟨rfl, rfl⟩

/-- C4 witness: the guard at a concrete store emits exactly one warning,
recorded in the process-wide warnings set. -/
theorem c4_witness :
    allKeysPresent stC4.store (Value.obj (Fields.cons "a" (Value.num 1) Fields.nil))
      (Value.ref "X") = false ∧
    warnAboutDataLoss "P" incC4 "f" stC4 =
      { stC4 with warnings := stC4.warnings ++ [typeDot stC4.store "P" incC4 "f"],
                  log := stC4.log ++ [Event.warned (typeDot stC4.store "P" incC4 "f")] } :=
  ⟨rfl, (c4_data_loss_guard "P" incC4 "f" stC4).2.2.2.2.2.2.2.1 _ _ rfl rfl rfl rfl rfl
    (List.not_mem_nil _)⟩

/-- C7: during a write a Reference is created only for an object whose
identification (explicit identifier taking precedence, else the identity
policy) produced an identifier; when no identifier was assigned,
processSelectionSet performs no store commit for the object and returns
the field accumulator computed by the work-set walk as an inline value,
with the state exactly the walk's state. -/
theorem c7_reference_only_when_identified (f : Nat) (env : Env) (d? : Option String)
    (result : Fields) (ss : SelSet) (s : WState) (v : Value) (s' : WState)
    (h : processSelectionSet (f+1) env d? result ss s = Res.ok v s') :
    (∀ r, v = Value.ref r → jsOrStr d? (env.policies.identify result ss).1 = some r) ∧
    (jsOrStr d? (env.policies.identify result ss).1 = none →
      ∃ fields, v = Value.obj fields ∧
        runWorkLoop f env result (psTypename env none result s.store) (initQueue ss) (initSeen ss)
          (initAcc (env.policies.identify result ss).2 (psTypename env none result s.store)) s =
          Res.ok fields s') := by
  obtain ⟨h1, h2⟩ := psShape f env d? result ss s h
  constructor
  · intro r hr
    cases hd : jsOrStr d? (env.policies.identify result ss).1 with
    | none =>
      obtain ⟨fields, hv, _⟩ := h2 hd
      rw [hr] at hv
      exact Value.noConfusion hv
    | some d =>
      have hv := h1 d hd
      rw [hr] at hv
      injection hv with hrd
      rw [hrd]
  · exact h2

/-- C7 witness: an unidentified object is returned inline as the empty
accumulator with no commit. -/
theorem c7_witness :
    (processSelectionSet 3 envA none Fields.nil (5, []) st0 = Res.ok (Value.obj Fields.nil) st0) ∧
    (∃ fields, Value.obj Fields.nil = Value.obj fields ∧
      runWorkLoop 2 envA Fields.nil (psTypename envA none Fields.nil st0.store) (initQueue (5, []))
        (initSeen (5, []))
        (initAcc ((envA.policies.identify Fields.nil (5, [])).2)
          (psTypename envA none Fields.nil st0.store)) st0 = Res.ok fields st0) :=
  ⟨rfl, (c7_reference_only_when_identified 2 envA none Fields.nil (5, []) st0
    (Value.obj Fields.nil) st0 rfl).2 rfl⟩

/-- C6: the exposed write entry point returns a Reference identifier
exactly when an explicit identifier was supplied or the root object
itself resolved one, and undefined otherwise; whenever it returns an
identifier it retains it in the store as a reachable GC root. -/
theorem c6_write_entry_reference (f : Nat) (env : Env) (d? : Option String) (result : Fields)
    (ss : SelSet) (s : WState) (r : Option String) (s' : WState)
    (hwf : ∀ d, d? = some d → d ≠ "")
    (h : writeToStore (f+1) env d? result ss s = Res.ok r s') :
    (r.isSome = true ↔
      (d?.isSome = true ∨ ((env.policies.identify result ss).1).isSome = true)) ∧
    (∀ d, r = some d → d ∈ s'.store.retained) := by
  rw [writeToStore.eq_def] at h
  simp only [] at h
  cases f with
  | zero => exact Res.noConfusion h
  | succ g =>
    cases hp : processSelectionSet (g+1) env d? result ss
        { s with written := [], shouldApplyMerges := false } with
    | err e s1 => rw [hp] at h; simp only [] at h; exact Res.noConfusion h
    | fuelOut => rw [hp] at h; simp only [] at h; exact Res.noConfusion h
    | ok v s1 =>
      rw [hp] at h
      simp only [] at h
      obtain ⟨h1, h2⟩ := psShape g env d? result ss _ hp
      cases hd : jsOrStr d? (env.policies.identify result ss).1 with
      | some d =>
        have hv := h1 d hd
        rw [hv] at h
        simp only [] at h
        injection h with hr hs'
        constructor
        · rw [← hr]
          simp only [Option.isSome_some, true_iff]
          rcases Option.eq_none_or_eq_some d? with hq | ⟨x, hq⟩
          · right
            rw [hq] at hd
            rw [jsOrStr.eq_def] at hd
            try simp only [] at hd
            rw [hd]
            rfl
          · left
            rw [hq]
            rfl
        · intro d0 hd0
          rw [← hr] at hd0
          injection hd0 with hdd
          rw [← hs', ← hdd]
          exact mem_retain_self s1.store d
      | none =>
        obtain ⟨fields, hv, _⟩ := h2 hd
        rw [hv] at h
        simp only [] at h
        have hq : d? = none := by
          rcases Option.eq_none_or_eq_some d? with hq | ⟨x, hq⟩
          · exact hq
          · exfalso
            rw [hq] at hd
            rw [jsOrStr.eq_def] at hd
            try simp only [] at hd
            rw [if_neg (hwf x hq)] at hd
            exact Option.noConfusion hd
        rw [hq] at h
        simp only [] at h
        injection h with hr hs'
        have hid : (env.policies.identify result ss).1 = none := by
          rw [hq] at hd
          rw [jsOrStr.eq_def] at hd
          try simp only [] at hd
          exact hd
        constructor
        · rw [← hr, hq, hid]
          simp
        · intro d0 hd0
          rw [← hr] at hd0
          exact Option.noConfusion hd0

/-- C6 witness: a write with an explicit identifier returns it as a
Reference and retains it. -/
theorem c6_witness :
    (writeToStore 5 envA (some "Todo:1") Fields.nil (7, []) st0 = Res.ok (some "Todo:1") stC6) ∧
    ((some "Todo:1" : Option String).isSome = true ∨
      ((envA.policies.identify Fields.nil (7, [])).1).isSome = true) ∧
    "Todo:1" ∈ stC6.store.retained :=
  ⟨rfl,
   (c6_write_entry_reference 4 envA (some "Todo:1") Fields.nil (7, []) st0 (some "Todo:1") stC6
     (fun d hd => by injection hd with h; subst h; decide) rfl).1.mp rfl,
   (c6_write_entry_reference 4 envA (some "Todo:1") Fields.nil (7, []) st0 (some "Todo:1") stC6
     (fun d hd => by injection hd with h; subst h; decide) rfl).2 "Todo:1" rfl⟩

/-- C1: within one write, the duplicate-work guard compares selection-set
nodes by identity: when the identified entity's applied-set already holds
this selection-set node, processSelectionSet returns a Reference at once
with the state untouched (no field re-walked, no event logged); any
completed application records the node in the applied-set, so applying
the identical node to the same identifier a second time in the same
write returns a Reference immediately and leaves the state unchanged. -/
theorem c1_selection_set_applied_once (f g : Nat) (env : Env) (d? : Option String)
    (result : Fields) (ss : SelSet) (s : WState) (d : String)
    (hd : jsOrStr d? (env.policies.identify result ss).1 = some d) :
    ((d, ss.1) ∈ s.written →
      processSelectionSet (f+1) env d? result ss s = Res.ok (Value.ref d) s) ∧
    (∀ v s', processSelectionSet (f+1) env d? result ss s = Res.ok v s' →
      ((d, ss.1) ∈ s'.written ∧
        processSelectionSet (g+1) env d? result ss s' = Res.ok (Value.ref d) s')) := by
  constructor
  · intro hw
    rw [processSelectionSet.eq_def]
    simp only []
    rw [hd]
    simp only []
    rw [if_pos hw]
  · intro v s' h
    have hmem : (d, ss.1) ∈ s'.written := by
      rw [processSelectionSet.eq_def] at h
      simp only [] at h
      rw [hd] at h
      simp only [] at h
      by_cases hw : (d, ss.1) ∈ s.written
      · rw [if_pos hw] at h
        injection h with h1 h2
        rw [← h2]
        exact hw
      · rw [if_neg hw] at h
        by_cases hf : (env.hasReader && env.isFresh result d ss.1) = true
        · rw [if_pos hf] at h
          injection h with h1 h2
          rw [← h2]
          exact List.mem_append_right _ (List.mem_singleton.mpr rfl)
        · rw [if_neg hf] at h
          cases hr : runWorkLoop f env result (psTypename env (some d) result s.store)
              (initQueue ss) (initSeen ss)
              (initAcc (env.policies.identify result ss).2 (psTypename env (some d) result s.store))
              { s with written := s.written ++ [(d, ss.1)] } with
          | ok acc2 s2 =>
            rw [hr] at h
            simp only [] at h
            injection h with h1 h2
            have hg := (growsAll f).2.1 env result (psTypename env (some d) result s.store)
              (initQueue ss) (initSeen ss)
              (initAcc (env.policies.identify result ss).2 (psTypename env (some d) result s.store))
              { s with written := s.written ++ [(d, ss.1)] }
            rw [hr] at hg
            have hmem2 := hg.1 (d, ss.1) (List.mem_append_right _ (List.mem_singleton.mpr rfl))
            rw [← h2]
            rw [commitEntity_written]
            exact hmem2
          | err e s2 => rw [hr] at h; simp only [] at h; exact Res.noConfusion h
          | fuelOut => rw [hr] at h; simp only [] at h; exact Res.noConfusion h
    refine ⟨hmem, ?_⟩
    rw [processSelectionSet.eq_def]
    simp only []
    rw [hd]
    simp only []
    rw [if_pos hmem]

/-- C1 witness: a first application records the selection-set node and a
second application of the identical node returns the Reference with the
state unchanged. -/
theorem c1_witness :
    jsOrStr (some "E") ((envA.policies.identify Fields.nil (3, [])).1) = some "E" ∧
    (("E", 3) ∈ stC1.written ∧
      processSelectionSet 4 envA (some "E") Fields.nil (3, []) stC1 =
        Res.ok (Value.ref "E") stC1) :=
  ⟨rfl, (c1_selection_set_applied_once 1 3 envA (some "E") Fields.nil (3, []) st0 "E" rfl).2
    (Value.ref "E") stC1 rfl⟩

/-- C8: an explicit identifier passed to processSelectionSet takes
precedence over the identity policy's identifier (the returned Reference
carries the explicit identifier), yet the policy's keyFields are still
derived and merged into the accumulator first, so every key field
appears in the record committed for the identifier even when the query
did not request it (assuming the custom-merge pass preserves keys, as
the spec requires of marker replacement). -/
theorem c8_explicit_id_and_key_fields (f : Nat) (env : Env) (d : String) (result : Fields)
    (ss : SelSet) (s : WState) (v : Value) (s' : WState) (idr : Option String) (ko : Fields)
    (hd : d ≠ "")
    (hident : env.policies.identify result ss = (idr, some ko))
    (hw : (d, ss.1) ∉ s.written)
    (hf : (env.hasReader && env.isFresh result d ss.1) = false)
    (ham : ∀ d0 mf k, k ∈ mf.keys → k ∈ (env.policies.applyMerges d0 mf).keys)
    (h : processSelectionSet (f+1) env (some d) result ss s = Res.ok v s') :
    v = Value.ref d ∧
    ∀ k, k ∈ ko.keys → k ∈ ((lookupRecord s'.store.records d).getD Fields.nil).keys := by
  have hjs : jsOrStr (some d) (env.policies.identify result ss).1 = some d := by
    rw [jsOrStr.eq_def]
    simp only []
    rw [if_neg hd]
  constructor
  · exact (psShape f env (some d) result ss s h).1 d hjs
  · intro k hk
    rw [processSelectionSet.eq_def] at h
    simp only [] at h
    rw [hjs] at h
    simp only [] at h
    rw [if_neg hw] at h
    rw [hf] at h
    simp only [Bool.false_eq_true, if_false] at h
    cases hr : runWorkLoop f env result (psTypename env (some d) result s.store)
        (initQueue ss) (initSeen ss)
        (initAcc (env.policies.identify result ss).2 (psTypename env (some d) result s.store))
        { s with written := s.written ++ [(d, ss.1)] } with
    | ok acc2 s2 =>
      rw [hr] at h
      simp only [] at h
      injection h with h1 h2
      have hk1 : k ∈ (initAcc (env.policies.identify result ss).2
          (psTypename env (some d) result s.store)).keys := by
        rw [hident]
        exact mem_keys_initAcc _ hk
      have hk2 : k ∈ acc2.keys :=
        loopAccKeys f env result (psTypename env (some d) result s.store)
          (initQueue ss) (initSeen ss) _ _ acc2 s2 hr k hk1
      have hk3 : k ∈ (if s2.shouldApplyMerges then
          env.policies.applyMerges d acc2 else acc2).keys := by
        by_cases hsam : s2.shouldApplyMerges = true
        · rw [if_pos hsam]
          exact ham d acc2 k hk2
        · rw [if_neg hsam]
          exact hk2
      rw [← h2]
      rw [commitEntity_store]
      rw [Store.mergeRecord]
      simp only []
      rw [lookupRecord_setRecord_self]
      simp only [Option.getD_some]
      exact mem_keys_mergeFields_right _ hk3
    | err e s2 => rw [hr] at h; simp only [] at h; exact Res.noConfusion h
    | fuelOut => rw [hr] at h; simp only [] at h; exact Res.noConfusion h

/-- C2 (amended): a field selection whose value at the response key is
absent raises the MissingFieldError naming the response key and carrying
the truncated snapshot of the result, exactly when the policy is strict
about completeness (usingPossibleTypes), the selection passes the
directive-based inclusion predicate, and the selection carries no defer
or client directive; otherwise the selection is skipped silently; an
error thrown by processSelectionSet propagates unchanged through the
write entry point (fatal, surfaced synchronously). -/
theorem c2_missing_field_error (f : Nat) (env : Env) (result : Fields) (tn : Option String)
    (sid : Nat) (name : String) (al : Option String) (incl dc : Bool)
    (sub : Option SelSet) (rest : List Selection) (seen : List Nat) (acc : Fields) (s : WState)
    (hmiss : result.lookup (al.getD name) = none) :
    (incl = true → env.policies.usingPossibleTypes = true → dc = false →
      runWorkLoop (f+1) env result tn (Selection.field sid name al incl dc sub :: rest) seen acc s =
        Res.err (Err.missingField (al.getD name) ((stringifyFields result).take 100)) s) ∧
    (incl = false →
      runWorkLoop (f+1) env result tn (Selection.field sid name al incl dc sub :: rest) seen acc s =
        runWorkLoop f env result tn rest seen acc s) ∧
    ((env.policies.usingPossibleTypes = false ∨ dc = true) →
      runWorkLoop (f+1) env result tn (Selection.field sid name al incl dc sub :: rest) seen acc s =
        runWorkLoop f env result tn rest seen acc s) ∧
    (∀ g d? ss e s2, processSelectionSet g env d? result ss
        { s with written := [], shouldApplyMerges := false } = Res.err e s2 →
      writeToStore (g+1) env d? result ss s = Res.err e s2) := by
  refine ⟨?_, ?_, ?_, ?_⟩
  · intro h1 h2 h3
    subst h1
    subst h3
    rw [runWorkLoop.eq_def]
    simp only [Selection.incl, Bool.not_true, Bool.false_eq_true, if_false]
    rw [hmiss]
    simp only []
    rw [if_pos (show (env.policies.usingPossibleTypes && !false) = true by rw [h2]; rfl)]
  · intro h1
    subst h1
    rfl
  · intro h1
    cases hin : incl with
    | false => rfl
    | true =>
      rw [runWorkLoop.eq_def]
      simp only [Selection.incl, Bool.not_true, Bool.false_eq_true, if_false]
      rw [hmiss]
      simp only []
      rcases h1 with hs | hdc
      · rw [if_neg (by simp [hs])]
      · rw [if_neg (by simp [hdc])]
  · intro g d? ss e s2 hps
    rw [writeToStore.eq_def]
    simp only []
    cases g with
    | zero => exact Res.noConfusion hps
    | succ g' =>
      rw [hps]

/-- C2 counterexample: the claim's biconditional omits the inclusion
predicate; under a strict policy a field excluded by a directive (for
example skip) whose value is absent does not fail the write. -/
theorem c2_counterexample :
    envA.policies.usingPossibleTypes = true ∧
    writeToStore 5 envA none Fields.nil
      (8, [Selection.field 80 "missing" none false false none]) st0 =
      Res.ok none st0 :=
  ⟨rfl, rfl⟩

/-- C2 witness: an included field absent from the result under the strict
policy raises the MissingFieldError naming it, with the truncated
snapshot. -/
theorem c2_witness :
    Fields.nil.lookup "missing" = none ∧
    runWorkLoop 3 envA Fields.nil none
      [Selection.field 81 "missing" none true false none] [] Fields.nil st0 =
      Res.err (Err.missingField "missing" ((stringifyFields Fields.nil).take 100)) st0 :=
  ⟨rfl, (c2_missing_field_error 2 envA Fields.nil none 81 "missing" none true false none
    [] [] Fields.nil st0 rfl).1 rfl rfl rfl⟩

theorem pfv_null (fuel : Nat) (env : Env) (ss : SelSet) (s : WState) {v1 : Value} {s1 : WState}
    (h : processFieldValue fuel env Value.null (some ss) s = Res.ok v1 s1) :
    v1 = Value.null := by
  cases fuel with
  | zero => exact Res.noConfusion h
  | succ f =>
    rw [processFieldValue.eq_def] at h
    simp only [] at h
    injection h with h1 h2
    exact h1.symm

theorem pfvs_shape (fuel : Nat) :
    ∀ env items ss s items' s',
      processFieldValues fuel env items ss s = Res.ok items' s' →
      items'.length = items.length ∧
      (∀ i, items.get? i = some Value.null → items'.get? i = some Value.null) := by
  induction fuel with
  | zero => intro env items ss s items' s' h; exact Res.noConfusion h
  | succ f ih =>
    intro env items ss s items' s' h
    rw [processFieldValues.eq_def] at h
    simp only [] at h
    cases items with
    | nil =>
      injection h with h1 h2
      rw [← h1]
      exact ⟨rfl, fun i hi => Option.noConfusion hi⟩
    | cons v rest =>
      simp only [] at h
      cases hr : processFieldValue f env v (some ss) s with
      | ok v1 s1 =>
        rw [hr] at h
        simp only [] at h
        cases hr2 : processFieldValues f env rest ss s1 with
        | ok rest1 s2 =>
          rw [hr2] at h
          simp only [] at h
          injection h with h1 h2
          rw [← h1]
          obtain ⟨hl, hn⟩ := ih env rest ss s1 rest1 s2 hr2
          constructor
          · rw [VList.length, VList.length, hl]
          · intro i hi
            cases i with
            | zero =>
              rw [VList.get?] at hi ⊢
              injection hi with hv0
              rw [hv0] at hr
              exact congrArg some (pfv_null f env ss s hr)
            | succ n =>
              rw [VList.get?] at hi ⊢
              exact hn n hi
        | err e s2 => rw [hr2] at h; simp only [] at h; exact Res.noConfusion h
        | fuelOut => rw [hr2] at h; simp only [] at h; exact Res.noConfusion h
      | err e s1 => rw [hr] at h; simp only [] at h; exact Res.noConfusion h
      | fuelOut => rw [hr] at h; simp only [] at h; exact Res.noConfusion h

/-- C9: the field value processor returns a value with no nested
selection set as-is (deep cloning outside production preserves
structure), returns an explicit null as-is, delegates an object-shaped
value to the selection-set processor with the nested selection set, the
same context and no explicit identifier, and maps a sequence elementwise
preserving length and null elements. -/
theorem c9_process_field_value (f : Nat) (env : Env) (s : WState) :
    (∀ v, processFieldValue (f+1) env v none s = Res.ok v s) ∧
    (∀ ss, processFieldValue (f+1) env Value.null (some ss) s = Res.ok Value.null s) ∧
    (∀ ss fields, processFieldValue (f+1) env (Value.obj fields) (some ss) s =
      processSelectionSet f env none fields ss s) ∧
    (∀ ss items items' s',
      processFieldValue (f+1) env (Value.arr items) (some ss) s = Res.ok (Value.arr items') s' →
      items'.length = items.length ∧
      (∀ i, items.get? i = some Value.null → items'.get? i = some Value.null)) := by
  refine ⟨fun v => rfl, fun ss => rfl, fun ss fields => rfl, ?_⟩
  intro ss items items' s' h
  rw [processFieldValue.eq_def] at h
  simp only [] at h
  cases hr : processFieldValues f env items ss s with
  | ok items2 s2 =>
    rw [hr] at h
    simp only [] at h
    injection h with h1 h2
    injection h1 with h1'
    rw [← h1']
    exact pfvs_shape f env items ss s items2 s2 hr
  | err e s2 => rw [hr] at h; simp only [] at h; exact Res.noConfusion h
  | fuelOut => rw [hr] at h; simp only [] at h; exact Res.noConfusion h

/-- C9 witness: a two-element sequence with a null element maps
elementwise, preserving order, length and the null element. -/
theorem c9_witness :
    (processFieldValue 8 envA
        (Value.arr (VList.cons Value.null (VList.cons (Value.num 7) VList.nil))) (some (9, [])) st0 =
      Res.ok (Value.arr (VList.cons Value.null (VList.cons (Value.obj Fields.nil) VList.nil))) st0) ∧
    (VList.cons Value.null (VList.cons (Value.obj Fields.nil) VList.nil)).length =
      (VList.cons Value.null (VList.cons (Value.num 7) VList.nil)).length ∧
    (∀ i, (VList.cons Value.null (VList.cons (Value.num 7) VList.nil)).get? i = some Value.null →
      (VList.cons Value.null (VList.cons (Value.obj Fields.nil) VList.nil)).get? i =
        some Value.null) :=
  ⟨rfl, (c9_process_field_value 7 envA st0).2.2.2 (9, []) _ _ _ rfl⟩



/-- C8 witness: an explicit identifier wins over the identity policy's
identifier and the unrequested key field appears in the committed
record. -/
theorem c8_witness :
    (processSelectionSet 2 envB (some "EXPL") Fields.nil (4, []) st0 =
      Res.ok (Value.ref "EXPL") stC8) ∧
    "id" ∈ ((lookupRecord stC8.store.records "EXPL").getD Fields.nil).keys :=
  ⟨rfl, (c8_explicit_id_and_key_fields 1 envB "EXPL" Fields.nil (4, []) st0 (Value.ref "EXPL") stC8
      (some "Todo:9") (Fields.cons "id" (Value.str "9") Fields.nil)
      (by decide) rfl (List.not_mem_nil _) rfl (fun _ _ _ hk => hk) rfl).2 "id" (by decide)⟩

/-- C5: when both fragments' type conditions match the resolved
typename, their inner selections are spliced into the same work set; the
work set's identity-based deduplication makes the field node shared by
both fragments contribute exactly once: it is walked once (one fieldWalk
event) and merged once into the accumulator. -/
theorem c5_fragment_splice_dedup (f : Nat) (env : Env) (result : Fields) (tn : Option String)
    (sidA sidB sidF : Nat) (condA condB : Option String) (ssA ssB : Nat)
    (nm : String) (acc : Fields) (s : WState) (v : Value)
    (hA : env.policies.fragmentMatches condA tn = true)
    (hB : env.policies.fragmentMatches condB tn = true)
    (hv : result.lookup nm = some v)
    (hm : env.policies.hasMergeFunction tn nm = false)
    (hFA : sidF ≠ sidA) (hFB : sidF ≠ sidB) :
    runWorkLoop (f+4) env result tn
      [Selection.frag sidA true condA (ssA, [Selection.field sidF nm none true false none]),
       Selection.frag sidB true condB (ssB, [Selection.field sidF nm none true false none])]
      [sidA, sidB] acc s =
      Res.ok (mergeFields acc (Fields.cons (env.policies.getStoreFieldName tn nm sidF) v Fields.nil))
        { s with log := s.log ++ [Event.fieldWalk sidF] } := by
  rw [runWorkLoop.eq_def]
  simp only [Selection.incl, Bool.not_true, Bool.false_eq_true, if_false]
  rw [if_pos hA]
  rw [addSels]
  simp only [Selection.sid]
  rw [if_neg (by simp [hFA, hFB])]
  rw [addSels]
  simp only [List.cons_append, List.nil_append]
  rw [runWorkLoop.eq_def]
  simp only [Selection.incl, Bool.not_true, Bool.false_eq_true, if_false]
  rw [if_pos hB]
  rw [addSels]
  simp only [Selection.sid]
  rw [if_pos (by simp)]
  rw [addSels]
  simp only [List.cons_append, List.nil_append]
  rw [runWorkLoop.eq_def]
  simp only [Selection.incl, Bool.not_true, Bool.false_eq_true, if_false, Option.getD_none]
  rw [hv]
  simp only []
  rw [processFieldValue.eq_def]
  simp only []
  rw [hm]
  simp only [Bool.false_eq_true, if_false]
  rw [runWorkLoop.eq_def]

/-- C5 witness: two concrete fragments sharing the same field node
contribute it exactly once. -/
theorem c5_witness :
    envA.policies.fragmentMatches none none = true ∧
    runWorkLoop 4 envA (Fields.cons "x" (Value.num 1) Fields.nil) none
      [Selection.frag 101 true none (201, [Selection.field 103 "x" none true false none]),
       Selection.frag 102 true none (202, [Selection.field 103 "x" none true false none])]
      [101, 102] Fields.nil st0 =
      Res.ok (mergeFields Fields.nil
          (Fields.cons (envA.policies.getStoreFieldName none "x" 103) (Value.num 1) Fields.nil))
        { st0 with log := st0.log ++ [Event.fieldWalk 103] } :=
  ⟨rfl, c5_fragment_splice_dedup 0 envA (Fields.cons "x" (Value.num 1) Fields.nil) none
    101 102 103 none none 201 202 "x" Fields.nil st0 (Value.num 1)
    rfl rfl rfl rfl (by decide) (by decide)⟩

/-- C10: an explicit null at the response key is not treated as missing:
the field is processed and its null is merged into the accumulator under
the field's storage key; and for an included strict-mode field selection
the work loop raises the missing-field error synchronously (with the
state unchanged) exactly when the value at the response key is absent
and the selection carries no defer or client directive. -/
theorem c10_null_not_missing (f : Nat) (env : Env) (result : Fields) (tn : Option String)
    (sid : Nat) (name : String) (al : Option String) (dc : Bool) (sub : Option SelSet)
    (seen : List Nat) (acc : Fields) (s : WState)
    (hstrict : env.policies.usingPossibleTypes = true)
    (hm : env.policies.hasMergeFunction tn name = false) :
    (∀ rest, result.lookup (al.getD name) = some Value.null →
      runWorkLoop (f+2) env result tn (Selection.field sid name al true dc sub :: rest) seen acc s =
        runWorkLoop (f+1) env result tn rest seen
          (mergeFields acc
            (Fields.cons (env.policies.getStoreFieldName tn name sid) Value.null Fields.nil))
          { s with log := s.log ++ [Event.fieldWalk sid] }) ∧
    (∀ e, (runWorkLoop (f+1) env result tn [Selection.field sid name al true dc sub] seen acc s =
        Res.err e s ↔
      (result.lookup (al.getD name) = none ∧ dc = false ∧
        e = Err.missingField (al.getD name) ((stringifyFields result).take 100)))) := by
  constructor
  · intro rest hv
    rw [runWorkLoop.eq_def]
    simp only [Selection.incl, Bool.not_true, Bool.false_eq_true, if_false]
    rw [hv]
    simp only []
    rw [processFieldValue.eq_def]
    simp only []
    cases sub with
    | none =>
      simp only []
      rw [hm]
      simp only [Bool.false_eq_true, if_false]
    | some ss =>
      simp only []
      rw [hm]
      simp only [Bool.false_eq_true, if_false]
  · intro e
    constructor
    · intro h
      rw [runWorkLoop.eq_def] at h
      simp only [Selection.incl, Bool.not_true, Bool.false_eq_true, if_false] at h
      cases hv : result.lookup (al.getD name) with
      | none =>
        rw [hv] at h
        simp only [] at h
        cases hdc : dc with
        | true =>
          exfalso
          rw [hdc] at h
          rw [if_neg (by simp)] at h
          cases f with
          | zero => exact Res.noConfusion h
          | succ f' =>
            rw [runWorkLoop.eq_def] at h
            simp only [] at h
            exact Res.noConfusion h
        | false =>
          rw [hdc] at h
          rw [if_pos (show (env.policies.usingPossibleTypes && !false) = true by
            rw [hstrict]; rfl)] at h
          injection h with h1 h2
          exact ⟨rfl, rfl, h1.symm⟩
      | some v =>
        exfalso
        rw [hv] at h
        simp only [] at h
        cases hr : processFieldValue f env v sub
            { s with log := s.log ++ [Event.fieldWalk sid] } with
        | ok incoming s2 =>
          rw [hr] at h
          simp only [] at h
          by_cases hmf : (env.policies.hasMergeFunction tn name) = true
          · rw [if_pos hmf] at h
            cases f with
            | zero => exact Res.noConfusion h
            | succ f' =>
              rw [runWorkLoop.eq_def] at h
              simp only [] at h
              exact Res.noConfusion h
          · rw [if_neg hmf] at h
            cases f with
            | zero => exact Res.noConfusion h
            | succ f' =>
              rw [runWorkLoop.eq_def] at h
              simp only [] at h
              exact Res.noConfusion h
        | err e2 s2 =>
          rw [hr] at h
          simp only [] at h
          injection h with h1 h2
          have hg := (growsAll f).2.2.1 env v sub { s with log := s.log ++ [Event.fieldWalk sid] }
          rw [hr] at hg
          obtain ⟨-, t, ht⟩ := hg
          rw [h2] at ht
          have hlen := congrArg List.length ht
          simp only [List.length_append, List.length_cons, List.length_nil] at hlen
          omega
        | fuelOut =>
          rw [hr] at h
          simp only [] at h
          exact Res.noConfusion h
    · rintro ⟨h1, h2, h3⟩
      subst h2
      subst h3
      rw [runWorkLoop.eq_def]
      simp only [Selection.incl, Bool.not_true, Bool.false_eq_true, if_false]
      rw [h1]
      simp only []
      rw [if_pos (show (env.policies.usingPossibleTypes && !false) = true by rw [hstrict]; rfl)]

/-- C10 witness: an explicit null is processed and merged under the
field's storage key rather than raising the missing-field error. -/
theorem c10_witness :
    (Fields.cons "q" Value.null Fields.nil).lookup "q" = some Value.null ∧
    runWorkLoop 2 envA (Fields.cons "q" Value.null Fields.nil) none
      [Selection.field 91 "q" none true false none] [] Fields.nil st0 =
      runWorkLoop 1 envA (Fields.cons "q" Value.null Fields.nil) none [] []
        (mergeFields Fields.nil
          (Fields.cons (envA.policies.getStoreFieldName none "q" 91) Value.null Fields.nil))
        { st0 with log := st0.log ++ [Event.fieldWalk 91] } :=
  ⟨rfl, (c10_null_not_missing 0 envA (Fields.cons "q" Value.null Fields.nil) none 91 "q" none
    false none [] Fields.nil st0 rfl rfl).1 [] rfl⟩
